import Mathlib

/-!
# Fractal drawer: a shallow embedding of `Fractal.h`, `Fractal.cpp`, `FractalDrawer.cpp`

The grid `std::vector<std::vector<char>> f` is a `List (List Char)`.  Member functions
take the grid they work on as an argument and give the new grid back.  Reading or
writing `f[i][j]` outside the vector has no defined result in the source; the embedding
returns `none` there, so every theorem that ends in `some _` also says that no index
left the grid.

The source computes with `int`.  All values that occur are non-negative, and they are
embedded as `Nat`; the fractal index of a request, which the factory compares with
the three known indices, is an `Int`.  `std::pow(b, e)` converted to `int` is `b ^ e`,
which is exact while the power is below `2 ^ 31`; that holds for every depth up to
`MAX_DIM` (`pow_fits_int`), and these functions compute with the exact power throughout.
The conversion itself is `powInt`; `setVectorInt`, `builtGridInt` and `makeAndPrintInt`
are `setVector`, the build and the handling of one request with every power and sum
computed in `int`: they return exactly when the side of the grid fits an `int`, and
then they agree with the functions on exact powers (`setVectorInt_eq`,
`builtGridInt_eq`, `makeAndPrintInt_eq`).  Properties that depend on the value of a
power are stated for them.
The recursion of `setVector` counts `dims` down to `0`, which a negative `dims` never
reaches: the embedding covers `dims ≥ 0`.
-/

namespace FractalDrawer

/-! ## Constants of `Fractal.h` -/

/-- The char printed for a cell that is drawn. -/
def TO_DROW : Char := '#'
/-- The char printed for a cell that is not drawn. -/
def NOT_DROW : Char := ' '

def MIN_DIM : Nat := 1
def MAX_DIM : Nat := 6

def CARPET_SIZE : Nat := 3
def TRIANGLE_SIZE : Nat := 2
def VICSEK_SIZE : Nat := 3

def CARPET_NUM_POINTS : Nat := 8
def TRIANGLE_NUM_POINTS : Nat := 3
def VICSEK_NUM_POINTS : Nat := 5

def CARPET_INDEX : Int := 1
def TRIANGLE_INDEX : Int := 2
def VICSEK_INDEX : Int := 3

def MIN_INDEX : Int := 1
def MAX_INDEX : Int := 3

/-- A point of the base tile: `struct Point { int row; int col; }`. -/
structure Point where
  row : Nat
  col : Nat
deriving DecidableEq, Repr

/-- The vector of vectors of chars that holds the fractal. -/
abbrev Grid := List (List Char)

/-! ## class Fractal -/

/-- The effect of `std::vector::resize(n)` with value-initialised new elements. -/
def resize {α : Type} (xs : List α) (n : Nat) (dflt : α) : List α :=
  xs.take n ++ List.replicate (n - xs.length) dflt

/-- `Fractal::resetVector`: resize to `size` rows of `size` cells and store
`NOT_DROW` in every cell. -/
def resetVector (f : Grid) (size : Nat) : Grid :=
  (resize f size []).map (fun row => (resize row size (Char.ofNat 0)).map (fun _ => NOT_DROW))

/-- The assignment `f[rowIdx][colIdx] = v`; `none` when an index is outside the vector. -/
def writeCell (f : Grid) (rowIdx colIdx : Nat) (v : Char) : Option Grid :=
  match f[rowIdx]? with
  | none => none
  | some row => if colIdx < row.length then some (f.set rowIdx (row.set colIdx v)) else none

/-- The `for (int i = 0; i < pointNum; i++)` loop of `setVector`: `step` is the loop
body for one point, run on the points in array order. -/
def setVectorLoop (step : Point → Grid → Option Grid) : List Point → Grid → Option Grid
  | [], f => some f
  | point :: rest, f =>
    match step point f with
    | none => none
    | some f1 => setVectorLoop step rest f1

/-- `Fractal::setVector(rowIdx, colIdx, thisSize, dims, places, pointNum)`; the array
`places` of length `pointNum` is the list `places`, and the last argument is the
vector `f` the call works on.  `diff_idx` is the exact power; the `int diff_idx` of the
source has this value while the power is at most `INT_MAX`. -/
def setVector : Nat → Nat → Nat → Nat → List Point → Grid → Option Grid
  | rowIdx, colIdx, _, 0, _, f => writeCell f rowIdx colIdx TO_DROW
  | rowIdx, colIdx, thisSize, dims + 1, places, f =>
    let diff_idx := thisSize ^ dims
    setVectorLoop
      (fun point g =>
        setVector (rowIdx + diff_idx * point.row) (colIdx + diff_idx * point.col) thisSize
          dims places g)
      places f

/-- The inner loop of `toPrint`: the cells `f[i][0 .. size-1]`, in order. -/
def toPrintRow (row : List Char) : Nat → Option (List Char)
  | 0 => some []
  | j + 1 =>
    match toPrintRow row j, row[j]? with
    | some out, some ch => some (out ++ [ch])
    | _, _ => none

/-- The outer loop of `toPrint`: rows `0 .. n-1`, each followed by `std::endl`. -/
def toPrintRows (f : Grid) (size : Nat) : Nat → Option (List Char)
  | 0 => some []
  | i + 1 =>
    match toPrintRows f size i, f[i]? with
    | some out, some row =>
      match toPrintRow row size with
      | some line => some (out ++ line ++ ['\n'])
      | none => none
    | _, _ => none

/-- `Fractal::toPrint(size)`: what is sent to `std::cout`. -/
def toPrint (f : Grid) (size : Nat) : Option (List Char) :=
  match toPrintRows f size size with
  | some out => some (out ++ ['\n'])
  | none => none

/-! ## The three fractals and the factory -/

/-- `SierpinskiCarpet::_points`. -/
def carpetPoints : List Point :=
  [⟨0, 0⟩, ⟨0, 1⟩, ⟨0, 2⟩, ⟨1, 0⟩, ⟨1, 2⟩, ⟨2, 0⟩, ⟨2, 1⟩, ⟨2, 2⟩]

/-- `SierpinskiTriangle::_points`. -/
def trianglePoints : List Point :=
  [⟨0, 0⟩, ⟨0, 1⟩, ⟨1, 0⟩]

/-- `VicsekFractal::_points`. -/
def vicsekPoints : List Point :=
  [⟨0, 0⟩, ⟨0, 2⟩, ⟨1, 1⟩, ⟨2, 0⟩, ⟨2, 2⟩]

/-- The dynamic type of a `Fractal*`: which subclass the object belongs to. -/
inductive Kind where
  | SierpinskiCarpet
  | SierpinskiTriangle
  | VicsekFractal
deriving DecidableEq, Repr

/-- An object of `class Fractal`: its subclass and the two members `dimensions`, `f`. -/
structure Fractal where
  kind : Kind
  dimensions : Nat
  f : Grid
deriving DecidableEq, Repr

/-- The constructor `SierpinskiCarpet::SierpinskiCarpet(dims)`; `f` starts empty.  The
side is the exact power, which is the `int` the source passes to `resetVector` while
it is at most `INT_MAX`, that is up to depth 19. -/
def newSierpinskiCarpet (dims : Nat) : Fractal :=
  ⟨Kind.SierpinskiCarpet, dims, resetVector [] (CARPET_SIZE ^ dims)⟩

/-- The constructor `SierpinskiTriangle::SierpinskiTriangle(dims)`.  The side is the
exact power, the `int` of the source while it is at most `INT_MAX`, that is up to
depth 30. -/
def newSierpinskiTriangle (dims : Nat) : Fractal :=
  ⟨Kind.SierpinskiTriangle, dims, resetVector [] (TRIANGLE_SIZE ^ dims)⟩

/-- The constructor `VicsekFractal::VicsekFractal(dims)`.  The side is the exact power,
the `int` of the source while it is at most `INT_MAX`, that is up to depth 19. -/
def newVicsekFractal (dims : Nat) : Fractal :=
  ⟨Kind.VicsekFractal, dims, resetVector [] (VICSEK_SIZE ^ dims)⟩

/-- The body shared by the three `makeAndPrint` overrides, which differ in the
constants only: `setVector(0, 0, size, dimensions, points, n)` and then
`toPrint(pow(size, dimensions))`.  The result is the object after the call and the
text printed.  The size handed to `toPrint` is the exact power, the `int` of the source
while it is at most `INT_MAX`. -/
def makeAndPrintWith (size : Nat) (points : List Point) (self : Fractal) :
    Option (Fractal × List Char) :=
  match setVector 0 0 size self.dimensions points self.f with
  | none => none
  | some g =>
    match toPrint g (size ^ self.dimensions) with
    | none => none
    | some out => some (⟨self.kind, self.dimensions, g⟩, out)

/-- `SierpinskiCarpet::makeAndPrint`. -/
def SierpinskiCarpet_makeAndPrint (self : Fractal) : Option (Fractal × List Char) :=
  makeAndPrintWith CARPET_SIZE (carpetPoints.take CARPET_NUM_POINTS) self

/-- `SierpinskiTriangle::makeAndPrint`. -/
def SierpinskiTriangle_makeAndPrint (self : Fractal) : Option (Fractal × List Char) :=
  makeAndPrintWith TRIANGLE_SIZE (trianglePoints.take TRIANGLE_NUM_POINTS) self

/-- `VicsekFractal::makeAndPrint`. -/
def VicsekFractal_makeAndPrint (self : Fractal) : Option (Fractal × List Char) :=
  makeAndPrintWith VICSEK_SIZE (vicsekPoints.take VICSEK_NUM_POINTS) self

/-- The virtual call `f->makeAndPrint()`. -/
def makeAndPrint (self : Fractal) : Option (Fractal × List Char) :=
  match self.kind with
  | Kind.SierpinskiCarpet => SierpinskiCarpet_makeAndPrint self
  | Kind.SierpinskiTriangle => SierpinskiTriangle_makeAndPrint self
  | Kind.VicsekFractal => VicsekFractal_makeAndPrint self

/-- `FractalFactory::makeFractal(index, dims)`; `none` is the final
`exit(EXIT_FAILURE)`. -/
def makeFractal (index : Int) (dims : Nat) : Option Fractal :=
  if index = CARPET_INDEX then some (newSierpinskiCarpet dims)
  else if index = TRIANGLE_INDEX then some (newSierpinskiTriangle dims)
  else if index = VICSEK_INDEX then some (newVicsekFractal dims)
  else none

/-! ## `FractalDrawer.cpp` -/

/-- The message of `inputErr`. -/
def ERR_INPUT : List Char := "Invalid input".toList

/-- The only file type that is considered valid. -/
def NEEDED_FILE_TYPE : List Char := ".csv".toList

/-- Why a run ended before its last statement: one of the two `exit(EXIT_FAILURE)`
of the program, or an index outside the vector. -/
inductive Stop where
  | inputErr
  | factoryExit
  | outOfRange
deriving DecidableEq, Repr

/-- What a run of a program part left behind: the text on `std::cout`, the text on
`std::cerr`, and `stop = none` when it returned to its caller. -/
structure Run where
  cout : List Char
  cerr : List Char
  stop : Option Stop
deriving DecidableEq, Repr

/-- `inputErr()`: the message on `std::cerr`, then `exit(EXIT_FAILURE)`; `cout` is the
text printed before the call. -/
def inputErr (cout : List Char) : Run :=
  ⟨cout, ERR_INPUT ++ ['\n'], some Stop.inputErr⟩

/-- `struct NeededFractal { int type; int dimension; }`. -/
structure NeededFractal where
  type : Int
  dimension : Nat
deriving DecidableEq, Repr

/-- The file behind a path, as the program sees it: whether it exists, its extension,
and the lines that `std::getline` reads from it one after the other. -/
structure CsvFile where
  isThere : Bool
  extension : List Char
  lines : List (List Char)

/-- `checkFileValid(path)`: `false` when `inputErr()` is called. -/
def checkFileValid (path : CsvFile) : Bool :=
  if !path.isThere then false
  else if path.extension ≠ NEEDED_FILE_TYPE then false
  else true

/-- `std::isdigit` on a char. -/
def isdigit (c : Char) : Bool := decide ('0' ≤ c) && decide (c ≤ '9')

/-- `std::stoi` on a string of one digit. -/
def stoi (t : List Char) : Nat :=
  match t with
  | c :: _ => c.toNat - '0'.toNat
  | [] => 0

/-- The locals `type`, `dim`, `numTokens` of the loop over the lines. -/
structure LineState where
  type : Int
  dim : Nat
  numTokens : Nat
deriving DecidableEq, Repr

/-- The body of `for (const auto &t: tok)` for one token `t`; `none` when
`inputErr()` is called. -/
def readToken (st : LineState) (t : List Char) : Option LineState :=
  if t.length ≠ 1 || t = [' '] then none
  else if !isdigit (t.headD ' ') then none
  else
    let n := stoi t
    if st.numTokens = 0 then
      if (n : Int) > MAX_INDEX || (n : Int) < MIN_INDEX then none
      else some ⟨(n : Int), st.dim, st.numTokens + 1⟩
    else
      if st.numTokens ≠ 1 || n > MAX_DIM || n < MIN_DIM then none
      else some ⟨st.type, n, st.numTokens + 1⟩

/-- The loop `for (const auto &t: tok)` over the tokens of one line. -/
def readTokens : LineState → List (List Char) → Option LineState
  | st, [] => some st
  | st, t :: rest =>
    match readToken st t with
    | none => none
    | some st1 => readTokens st1 rest

/-- The body of `while (std::getline(toRead, line))` for one line: the request to
push back, or `none` when `inputErr()` is called.  `tok` is the tokenizer
`boost::tokenizer<boost::char_separator<char>>` with separator
`(",", " ", keep_empty_tokens)`, a library that is not part of the program. -/
def readLine (tok : List Char → List (List Char)) (line : List Char) : Option NeededFractal :=
  if line.isEmpty then none
  else
    match readTokens ⟨0, 0, 0⟩ (tok line) with
    | none => none
    | some st => if st.numTokens ≠ 2 then none else some ⟨st.type, st.dim⟩

/-- `readFileToVector(path, v)`: the vector after the call, or `none` when
`inputErr()` is called. -/
def readFileToVector (tok : List Char → List (List Char)) :
    List (List Char) → List NeededFractal → Option (List NeededFractal)
  | [], v => some v
  | line :: rest, v =>
    match readLine tok line with
    | none => none
    | some r => readFileToVector tok rest (v ++ [r])

/-- The loop of `printFractals` over the requests in the order given; `cout` is the
text printed so far. -/
def printFractalsLoop : List NeededFractal → List Char → Run
  | [], cout => ⟨cout, [], none⟩
  | it :: rest, cout =>
    match makeFractal it.type it.dimension with
    | none => ⟨cout, [], some Stop.factoryExit⟩
    | some f =>
      match makeAndPrint f with
      | none => ⟨cout, [], some Stop.outOfRange⟩
      | some (_, text) => printFractalsLoop rest (cout ++ text)

/-- `printFractals(v)`: the loop runs from `v.rbegin()` to `v.rend()`. -/
def printFractals (v : List NeededFractal) : Run :=
  printFractalsLoop v.reverse []

/-- `dealWithInput(path)`. -/
def dealWithInput (tok : List Char → List (List Char)) (path : CsvFile) : Run :=
  if !checkFileValid path then inputErr []
  else
    match readFileToVector tok path.lines [] with
    | none => inputErr []
    | some v => printFractals v

/-! ## Definitions used to state the properties -/

/-- The cell `f[i][j]` when both indices are inside the vector. -/
def cell (g : Grid) (i j : Nat) : Option Char :=
  match g[i]? with
  | none => none
  | some row => row[j]?

/-- A grid of `h` rows that all have `w` cells. -/
def Shape (g : Grid) (h w : Nat) : Prop :=
  g.length = h ∧ ∀ row ∈ g, row.length = w

instance decidableShape (g : Grid) (h w : Nat) : Decidable (Shape g h w) := by
  unfold Shape
  infer_instance

/-- Whether offset `(x, y)` inside a tile of depth `d` is drawn: the sub-tile of side
`N ^ (d-1)` that holds the offset is one of the points, and so on inside it. -/
def drawnAt (N : Nat) (S : List Point) : Nat → Nat → Nat → Bool
  | 0, _, _ => true
  | d + 1, x, y =>
    decide ((⟨x / N ^ d, y / N ^ d⟩ : Point) ∈ S) && drawnAt N S d (x % N ^ d) (y % N ^ d)

/-- Whether cell `(i, j)` lies in the tile of depth `d` with corner `(r, c)` and is
drawn there. -/
def inTile (N : Nat) (S : List Point) (d r c i j : Nat) : Bool :=
  decide (r ≤ i) && decide (i < r + N ^ d) && decide (c ≤ j) && decide (j < c + N ^ d) &&
    drawnAt N S d (i - r) (j - c)

/-- The grid of a fractal after its constructor and the `setVector` call of
`makeAndPrint`: `resetVector(pow(size, dims))` on the empty vector, then
`setVector(0, 0, size, dims, points, n)`. -/
def builtGrid (size : Nat) (points : List Point) (dims : Nat) : Option Grid :=
  setVector 0 0 size dims points (resetVector [] (size ^ dims))

/-- The square of side `m` cut out of a grid with its corner at `(r0, c0)`. -/
def subTile (g : Grid) (r0 c0 m : Nat) : Grid :=
  ((g.drop r0).take m).map (fun row => (row.drop c0).take m)

/-- The grid of side `s` with all cells blank. -/
def blankGrid (s : Nat) : Grid :=
  List.replicate s (List.replicate s NOT_DROW)

/-- The size constant of each subclass. -/
def baseSize : Kind → Nat
  | Kind.SierpinskiCarpet => CARPET_SIZE
  | Kind.SierpinskiTriangle => TRIANGLE_SIZE
  | Kind.VicsekFractal => VICSEK_SIZE

/-- The points each subclass hands to `setVector`: its `_points` array with its
number of points. -/
def stencil : Kind → List Point
  | Kind.SierpinskiCarpet => carpetPoints.take CARPET_NUM_POINTS
  | Kind.SierpinskiTriangle => trianglePoints.take TRIANGLE_NUM_POINTS
  | Kind.VicsekFractal => vicsekPoints.take VICSEK_NUM_POINTS

/-- The largest value of the 32-bit `int` the source computes with. -/
def INT_MAX : Nat := 2147483647

/-- A value computed in `int`: the value when it is at most `INT_MAX`, and `none` above
it, where the source has no defined result. -/
def intOf (x : Nat) : Option Nat :=
  if x ≤ INT_MAX then some x else none

/-- The conversion `int x = std::pow(b, e)` of the source: the power when it is at most
`INT_MAX`, and `none` above it, where the conversion has no defined value. -/
def powInt (b e : Nat) : Option Nat :=
  if b ^ e ≤ INT_MAX then some (b ^ e) else none

/-- `Fractal::setVector` on 32-bit ints: as `setVector`, with `int diff_idx =
std::pow(thisSize, dims)` and the two sums `rowIdx + diff_idx * point.row`,
`colIdx + diff_idx * point.col` computed in `int`; `none` when one of them has no `int`
value or an index is outside the vector. -/
def setVectorInt : Nat → Nat → Nat → Nat → List Point → Grid → Option Grid
  | rowIdx, colIdx, _, 0, _, f => writeCell f rowIdx colIdx TO_DROW
  | rowIdx, colIdx, thisSize, dims + 1, places, f =>
    match powInt thisSize dims with
    | none => none
    | some diff_idx =>
      setVectorLoop
        (fun point g =>
          match intOf (rowIdx + diff_idx * point.row), intOf (colIdx + diff_idx * point.col) with
          | some r, some c => setVectorInt r c thisSize dims places g
          | _, _ => none)
        places f

/-- The build on 32-bit ints: `resetVector(std::pow(size, dims))` of the constructor on
the empty vector, then `setVector(0, 0, size, dims, points, n)`; `none` when a value has
no `int`. -/
def builtGridInt (size : Nat) (points : List Point) (dims : Nat) : Option Grid :=
  match powInt size dims with
  | none => none
  | some side => setVectorInt 0 0 size dims points (resetVector [] side)

/-- One request on 32-bit ints: `makeFractal(index, dims)`, whose constructor calls
`resetVector(std::pow(size, dimensions))`, and then `makeAndPrint()`, which calls
`setVector(0, 0, size, dimensions, points, n)` and `toPrint(std::pow(size,
dimensions))`.  The result is the fractal after the calls and the text printed; `none`
when the factory exits, a value has no `int`, or an index is outside the vector. -/
def makeAndPrintInt (index : Int) (dims : Nat) : Option (Fractal × List Char) :=
  match makeFractal index dims with
  | none => none
  | some fr =>
    match powInt (baseSize fr.kind) fr.dimensions with
    | none => none
    | some side =>
      match setVectorInt 0 0 (baseSize fr.kind) fr.dimensions (stencil fr.kind)
          (resetVector [] side) with
      | none => none
      | some g =>
        match toPrint g side with
        | none => none
        | some out => some (⟨fr.kind, fr.dimensions, g⟩, out)

/-- The number of cells of the grid that hold `TO_DROW`. -/
def countDrawn (g : Grid) : Nat :=
  (g.map (fun row => row.count TO_DROW)).sum

/-- The number of drawn offsets in a tile of depth `d`, counted from `drawnAt`. -/
def drawnTotal (N : Nat) (S : List Point) (d : Nat) : Nat :=
  ∑ i ∈ Finset.range (N ^ d), ∑ j ∈ Finset.range (N ^ d), if drawnAt N S d i j then 1 else 0

/-- The number of blocks of the base tile that are points. -/
def stencilBlocks (N : Nat) (S : List Point) : Nat :=
  ∑ a ∈ Finset.range N, ∑ b ∈ Finset.range N, if (⟨a, b⟩ : Point) ∈ S then 1 else 0

/-- The text of a grid: every row followed by a line terminator, and one more line
terminator after the last row. -/
def render (g : Grid) : List Char :=
  (g.map (fun row => row ++ ['\n'])).flatten ++ ['\n']

/-- The index the factory answers with each subclass. -/
def indexOf : Kind → Int
  | Kind.SierpinskiCarpet => CARPET_INDEX
  | Kind.SierpinskiTriangle => TRIANGLE_INDEX
  | Kind.VicsekFractal => VICSEK_INDEX

/-- The cell state of the specification: one of Drawn, Blank. -/
inductive CellState where
  | Drawn
  | Blank
deriving DecidableEq, Repr

/-- The grid of the specification: a square container of cell states. -/
abbrev SpecGrid := List (List CellState)

/-- The pattern definition of the specification: the base size and the stencil, a list
of `(row, col)` offsets. -/
structure PatternDefinition where
  baseSize : Nat
  stencil : List (Nat × Nat)
deriving DecidableEq, Repr

/-- The catalog `lookup(kind)` of the specification, with its table of three
definitions; `none` is the InvalidKind condition. -/
def specLookup (kind : Int) : Option PatternDefinition :=
  if kind = 1 then
    some ⟨3, [(0, 0), (0, 1), (0, 2), (1, 0), (1, 2), (2, 0), (2, 1), (2, 2)]⟩
  else if kind = 2 then
    some ⟨2, [(0, 0), (0, 1), (1, 0)]⟩
  else if kind = 3 then
    some ⟨3, [(0, 0), (0, 2), (1, 1), (2, 0), (2, 2)]⟩
  else none

/-- The step of the specification that marks the single cell `(row, col)` Drawn. -/
def specMark (g : SpecGrid) (row col : Nat) : SpecGrid :=
  match g[row]? with
  | none => g
  | some cells => g.set row (cells.set col CellState.Drawn)

/-- The recursion `fill(rowOrigin, colOrigin, remainingDepth)` of the specification. -/
def specFill (p : PatternDefinition) : Nat → Nat → Nat → SpecGrid → SpecGrid
  | 0, rowOrigin, colOrigin, g => specMark g rowOrigin colOrigin
  | remainingDepth + 1, rowOrigin, colOrigin, g =>
    let subTileEdge := p.baseSize ^ remainingDepth
    p.stencil.foldl
      (fun acc off =>
        specFill p remainingDepth (rowOrigin + off.1 * subTileEdge)
          (colOrigin + off.2 * subTileEdge) acc)
      g

/-- The build of the specification, `build(definition, depth)`: a grid of side
`baseSize ^ depth` with all cells Blank, then `fill(0, 0, depth)`. -/
def specBuild (p : PatternDefinition) (depth : Nat) : SpecGrid :=
  specFill p depth 0 0
    (List.replicate (p.baseSize ^ depth) (List.replicate (p.baseSize ^ depth) CellState.Blank))

/-- The glyph the renderer of the specification prints for a cell state. -/
def glyph : CellState → Char
  | CellState.Drawn => '#'
  | CellState.Blank => ' '

/-- The char grid that shows a grid of cell states. -/
def toChars (g : SpecGrid) : Grid :=
  g.map (fun row => row.map glyph)

/-- The offsets of a list of points. -/
def offsets (S : List Point) : List (Nat × Nat) :=
  S.map (fun p => (p.row, p.col))

/-- The text `printFractals` prints for a request on its own. -/
def block (r : NeededFractal) : List Char :=
  (printFractals [r]).cout

/-- A tokenizer for examples: the pieces of the line between its commas, which is what
the tokenizer of the program yields on a line without blanks. -/
def commaTokens : List Char → List (List Char)
  | [] => [[]]
  | c :: rest =>
    if c = ',' then [] :: commaTokens rest
    else
      match commaTokens rest with
      | [] => [[c]]
      | t :: ts => (c :: t) :: ts

/-- What the loop over the tokens of a line keeps true of `type`, `dim`, `numTokens`:
at most two tokens were read, the first gave a type from 1 to 3, the second a
dimension from 1 to 6. -/
def LineInv (st : LineState) : Prop :=
  st.numTokens = 0 ∨
  (st.numTokens = 1 ∧ 1 ≤ st.type ∧ st.type ≤ 3) ∨
  (st.numTokens = 2 ∧ 1 ≤ st.type ∧ st.type ≤ 3 ∧ 1 ≤ st.dim ∧ st.dim ≤ 6)

instance decidableLineInv (st : LineState) : Decidable (LineInv st) := by
  unfold LineInv
  infer_instance

/-- A request with type from 1 to 3 and dimension from 1 to 6. -/
def InRange (r : NeededFractal) : Prop :=
  1 ≤ r.type ∧ r.type ≤ 3 ∧ 1 ≤ r.dimension ∧ r.dimension ≤ 6

instance decidableInRange (r : NeededFractal) : Decidable (InRange r) := by
  unfold InRange
  infer_instance

/-- The cells `setVector` assigns to, in the order of the assignments: the same
recursion, with the cell listed where `setVector` writes it.  As in `setVector`,
`diff_idx` is the exact power, the `int` of the source while it is at most `INT_MAX`. -/
def setVectorWrites : Nat → Nat → Nat → Nat → List Point → List (Nat × Nat)
  | rowIdx, colIdx, _, 0, _ => [(rowIdx, colIdx)]
  | rowIdx, colIdx, thisSize, dims + 1, places =>
    let diff_idx := thisSize ^ dims
    places.flatMap
      (fun point =>
        setVectorWrites (rowIdx + diff_idx * point.row) (colIdx + diff_idx * point.col)
          thisSize dims places)

/-- The assignments `f[r][c] = TO_DROW` for the cells of a list, one after the other. -/
def writeAll : List (Nat × Nat) → Grid → Option Grid
  | [], f => some f
  | x :: rest, f =>
    match writeCell f x.1 x.2 TO_DROW with
    | none => none
    | some f1 => writeAll rest f1

/-- The cell `setVector` ends at when the call of each level takes the point of the
list for that level, the outermost call first.  The offsets are scaled by the exact
power, the `int diff_idx` of the source while it is at most `INT_MAX`. -/
def reach : Nat → Nat → Nat → List Point → Nat × Nat
  | rowIdx, colIdx, _, [] => (rowIdx, colIdx)
  | rowIdx, colIdx, thisSize, point :: rest =>
    reach (rowIdx + thisSize ^ rest.length * point.row)
      (colIdx + thisSize ^ rest.length * point.col) thisSize rest

/-- Whether the vector holds the cell `f[r][c]`. -/
def holds (g : Grid) (r c : Nat) : Bool :=
  match g[r]? with
  | none => false
  | some row => decide (c < row.length)

/-- The lists of `d` points of `S`: one point for each level of the recursion. -/
def choices (S : List Point) : Nat → List (List Point)
  | 0 => [[]]
  | d + 1 => S.flatMap (fun p => (choices S d).map (fun rest => p :: rest))

/-- The lengths of the rows of a grid. -/
def rowLengths (g : Grid) : List Nat :=
  g.map List.length

/-- Whether a token is one digit with a value from `lo` to `hi`. -/
def digitIn (t : List Char) (lo hi : Nat) : Bool :=
  decide (t.length = 1) && isdigit (t.headD ' ') && decide (lo ≤ stoi t) &&
    decide (stoi t ≤ hi)

/-- The lines the reader accepts, in closed form: a line that is not empty and has
exactly two tokens, a digit from 1 to 3 and a digit from 1 to 6; the result is the
request the line stands for. -/
def acceptLine (tok : List Char → List (List Char)) (line : List Char) :
    Option NeededFractal :=
  if line.isEmpty then none
  else
    match tok line with
    | [t1, t2] =>
      if digitIn t1 1 3 && digitIn t2 1 6 then some ⟨(stoi t1 : Int), stoi t2⟩ else none
    | _ => none

/-! ## Theorems -/

theorem Shape.row_length {g : Grid} {h w : Nat} (hs : Shape g h w) {i : Nat}
    (hi : i < g.length) : (g[i]).length = w :=
  hs.2 _ (List.getElem_mem hi)

theorem cell_of_lt {g : Grid} {h w : Nat} (hs : Shape g h w) {i j : Nat}
    (hi : i < h) (hj : j < w) :
    ∃ (hi2 : i < g.length) (hj2 : j < (g[i]).length), cell g i j = some ((g[i])[j]) := by
  have hi2 : i < g.length := by rw [hs.1]; exact hi
  have hj2 : j < (g[i]).length := by rw [hs.row_length hi2]; exact hj
  refine ⟨hi2, hj2, ?_⟩
  simp [cell, List.getElem?_eq_getElem hi2, List.getElem?_eq_getElem hj2]

theorem cell_eq_none_of_row {g : Grid} {h w : Nat} (hs : Shape g h w) {i : Nat} (j : Nat)
    (hi : h ≤ i) : cell g i j = none := by
  have hlen := hs.1
  have : g[i]? = none := by
    rw [List.getElem?_eq_none_iff]; omega
  simp [cell, this]

theorem cell_eq_none_of_col {g : Grid} {h w : Nat} (hs : Shape g h w) (i : Nat) {j : Nat}
    (hj : w ≤ j) : cell g i j = none := by
  unfold cell
  cases hrow : g[i]? with
  | none => rfl
  | some row =>
    have hmem : row ∈ g := List.getElem?_mem hrow
    have := hs.2 row hmem
    simp only
    rw [List.getElem?_eq_none_iff]; omega

/-- Two grids of one shape with the same cells are the same grid. -/
theorem grid_ext {g1 g2 : Grid} {h w : Nat} (h1 : Shape g1 h w) (h2 : Shape g2 h w)
    (hc : ∀ i j, i < h → j < w → cell g1 i j = cell g2 i j) : g1 = g2 := by
  apply List.ext_getElem
  · rw [h1.1, h2.1]
  · intro i hi1 hi2
    apply List.ext_getElem
    · rw [h1.row_length hi1, h2.row_length hi2]
    · intro j hj1 hj2
      have hih : i < h := by rw [← h1.1]; exact hi1
      have hjw : j < w := by rw [← h1.row_length hi1]; exact hj1
      have := hc i j hih hjw
      simpa [cell, List.getElem?_eq_getElem hi1, List.getElem?_eq_getElem hi2,
        List.getElem?_eq_getElem hj1, List.getElem?_eq_getElem hj2] using this

/-- What the assignment `f[r][c] = v` does on a grid that holds the cell. -/
theorem writeCell_spec {g : Grid} {h w : Nat} (hs : Shape g h w) {r c : Nat} (v : Char)
    (hr : r < h) (hc : c < w) :
    ∃ g1, writeCell g r c v = some g1 ∧ Shape g1 h w ∧
      ∀ i j, cell g1 i j = if i = r ∧ j = c then some v else cell g i j := by
  have hr2 : r < g.length := by rw [hs.1]; exact hr
  have hrow : g[r]? = some (g[r]) := List.getElem?_eq_getElem hr2
  have hlen : (g[r]).length = w := hs.row_length hr2
  refine ⟨g.set r ((g[r]).set c v), ?_, ?_, ?_⟩
  · unfold writeCell
    rw [hrow]
    simp only [hlen, hc, if_true]
  · refine ⟨by simp [hs.1], ?_⟩
    intro row hmem
    rcases List.mem_or_eq_of_mem_set hmem with h1 | h1
    · exact hs.2 row h1
    · rw [h1, List.length_set]; exact hlen
  · intro i j
    unfold cell
    by_cases hir : i = r
    · subst hir
      have hcl : c < (g[i]).length := by rw [hlen]; exact hc
      by_cases hjc : j = c
      · subst hjc
        simp [List.getElem?_set_self hr2, List.getElem?_set_self hcl]
      · have hne : c ≠ j := fun h => hjc h.symm
        simp [hjc, List.getElem?_set_self hr2, List.getElem?_set_ne hne, hrow]
    · have hne : r ≠ i := fun h => hir h.symm
      simp [hir, List.getElem?_set_ne hne]

theorem div_eq_iff_block {M : Nat} (hM : 0 < M) (a x : Nat) :
    x / M = a ↔ M * a ≤ x ∧ x < M * a + M := by
  constructor
  · intro h
    subst h
    have h1 := Nat.div_add_mod x M
    have h2 := Nat.mod_lt x hM
    constructor <;> omega
  · rintro ⟨h1, h2⟩
    have hx : x = M * a + (x - M * a) := by omega
    rw [hx, Nat.mul_add_div hM, Nat.div_eq_of_lt (by omega)]
    rfl

theorem mod_eq_sub_block {M : Nat} {a x : Nat} (h : x / M = a) :
    x % M = x - M * a := by
  subst h
  have h1 := Nat.div_add_mod x M
  omega

/-- The loop over the points, when the body for each point draws the cells picked by
`P` and leaves the others. -/
theorem setVectorLoop_spec (step : Point → Grid → Option Grid) (P : Point → Nat → Nat → Bool)
    (h w : Nat) (ps : List Point)
    (hstep : ∀ p ∈ ps, ∀ g, Shape g h w → ∃ g1, step p g = some g1 ∧ Shape g1 h w ∧
      ∀ i j, cell g1 i j = if P p i j then some TO_DROW else cell g i j) :
    ∀ g, Shape g h w → ∃ g1, setVectorLoop step ps g = some g1 ∧ Shape g1 h w ∧
      ∀ i j, cell g1 i j = if ps.any (fun p => P p i j) then some TO_DROW else cell g i j := by
  induction ps with
  | nil =>
    intro g hg
    exact ⟨g, rfl, hg, fun i j => by simp⟩
  | cons p rest ih =>
    intro g hg
    obtain ⟨g1, e1, s1, c1⟩ := hstep p (List.mem_cons_self _ _) g hg
    obtain ⟨g2, e2, s2, c2⟩ :=
      ih (fun q hq => hstep q (List.mem_cons_of_mem _ hq)) g1 s1
    refine ⟨g2, ?_, s2, ?_⟩
    · simp only [setVectorLoop, e1, e2]
    · intro i j
      rw [c2, c1]
      simp only [List.any_cons]
      by_cases h1 : P p i j = true <;>
        by_cases h2 : rest.any (fun p => P p i j) = true <;> simp [h1, h2]

theorem any_inTile (N : Nat) (S : List Point) (hN : 0 < N)
    (hS : ∀ p ∈ S, p.row < N ∧ p.col < N) (d r c i j : Nat) :
    S.any (fun p => inTile N S d (r + N ^ d * p.row) (c + N ^ d * p.col) i j)
      = inTile N S (d + 1) r c i j := by
  have hM : 0 < N ^ d := pow_pos hN d
  rw [Bool.eq_iff_iff]
  simp only [List.any_eq_true, inTile, drawnAt, Bool.and_eq_true, decide_eq_true_eq]
  constructor
  · rintro ⟨p, hp, ⟨⟨⟨⟨h1, h2⟩, h3⟩, h4⟩, h5⟩⟩
    obtain ⟨hr, hc⟩ := hS p hp
    have hx : (i - r) / N ^ d = p.row := (div_eq_iff_block hM _ _).2 ⟨by omega, by omega⟩
    have hy : (j - c) / N ^ d = p.col := (div_eq_iff_block hM _ _).2 ⟨by omega, by omega⟩
    have hrN : N ^ d * p.row + N ^ d ≤ N ^ (d + 1) := by
      have : N ^ d * (p.row + 1) ≤ N ^ d * N := Nat.mul_le_mul_left _ hr
      rw [pow_succ]; rw [Nat.mul_add, Nat.mul_one] at this; exact this
    have hcN : N ^ d * p.col + N ^ d ≤ N ^ (d + 1) := by
      have : N ^ d * (p.col + 1) ≤ N ^ d * N := Nat.mul_le_mul_left _ hc
      rw [pow_succ]; rw [Nat.mul_add, Nat.mul_one] at this; exact this
    refine ⟨⟨⟨⟨by omega, by omega⟩, by omega⟩, by omega⟩, ?_, ?_⟩
    · rw [hx, hy]; exact hp
    · rw [mod_eq_sub_block hx, mod_eq_sub_block hy]
      have e1 : i - r - N ^ d * p.row = i - (r + N ^ d * p.row) := by omega
      have e2 : j - c - N ^ d * p.col = j - (c + N ^ d * p.col) := by omega
      rw [e1, e2]; exact h5
  · rintro ⟨⟨⟨⟨h1, h2⟩, h3⟩, h4⟩, h5, h6⟩
    refine ⟨⟨(i - r) / N ^ d, (j - c) / N ^ d⟩, h5, ?_⟩
    dsimp only
    have bx := (div_eq_iff_block hM _ (i - r)).1 rfl
    have by1 := (div_eq_iff_block hM _ (j - c)).1 rfl
    refine ⟨⟨⟨⟨by omega, by omega⟩, by omega⟩, by omega⟩, ?_⟩
    rw [mod_eq_sub_block rfl, mod_eq_sub_block rfl] at h6
    have e1 : i - r - N ^ d * ((i - r) / N ^ d) = i - (r + N ^ d * ((i - r) / N ^ d)) := by
      omega
    have e2 : j - c - N ^ d * ((j - c) / N ^ d) = j - (c + N ^ d * ((j - c) / N ^ d)) := by
      omega
    rw [e1, e2] at h6; exact h6

/-- The effect of `setVector` on a grid that holds the whole tile: it returns, keeps
the shape, draws the cells of the tile that `drawnAt` picks and leaves every other
cell as it was. -/
theorem setVector_spec (N : Nat) (S : List Point) (hN : 0 < N)
    (hS : ∀ p ∈ S, p.row < N ∧ p.col < N) (h w : Nat) :
    ∀ (d r c : Nat) (g : Grid), Shape g h w → r + N ^ d ≤ h → c + N ^ d ≤ w →
      ∃ g1, setVector r c N d S g = some g1 ∧ Shape g1 h w ∧
        ∀ i j, cell g1 i j = if inTile N S d r c i j then some TO_DROW else cell g i j := by
  intro d
  induction d with
  | zero =>
    intro r c g hg hr hc
    simp only [pow_zero] at hr hc
    obtain ⟨g1, e1, s1, c1⟩ := writeCell_spec hg TO_DROW (show r < h by omega) (show c < w by omega)
    refine ⟨g1, by simpa [setVector] using e1, s1, ?_⟩
    intro i j
    rw [c1]
    have : inTile N S 0 r c i j = decide (i = r ∧ j = c) := by
      rw [Bool.eq_iff_iff]
      simp only [inTile, drawnAt, pow_zero, Bool.and_eq_true, decide_eq_true_eq, Bool.and_true]
      omega
    rw [this]
    by_cases hh : i = r ∧ j = c <;> simp [hh]
  | succ d ih =>
    intro r c g hg hr hc
    have key := setVectorLoop_spec
      (fun point g => setVector (r + N ^ d * point.row) (c + N ^ d * point.col) N d S g)
      (fun p i j => inTile N S d (r + N ^ d * p.row) (c + N ^ d * p.col) i j) h w S
      (by
        intro p hp g0 hg0
        obtain ⟨hpr, hpc⟩ := hS p hp
        have hrN : N ^ d * p.row + N ^ d ≤ N ^ (d + 1) := by
          have : N ^ d * (p.row + 1) ≤ N ^ d * N := Nat.mul_le_mul_left _ hpr
          rw [pow_succ]; rw [Nat.mul_add, Nat.mul_one] at this; exact this
        have hcN : N ^ d * p.col + N ^ d ≤ N ^ (d + 1) := by
          have : N ^ d * (p.col + 1) ≤ N ^ d * N := Nat.mul_le_mul_left _ hpc
          rw [pow_succ]; rw [Nat.mul_add, Nat.mul_one] at this; exact this
        exact ih _ _ g0 hg0 (by omega) (by omega))
      g hg
    obtain ⟨g1, e1, s1, c1⟩ := key
    refine ⟨g1, by simpa [setVector] using e1, s1, ?_⟩
    intro i j
    rw [c1, any_inTile N S hN hS]

theorem resetVector_eq (f : Grid) (size : Nat) : resetVector f size = blankGrid size := by
  unfold resetVector blankGrid
  apply List.ext_getElem
  · simp [resize]; omega
  · intro i h1 h2
    simp only [List.getElem_map, List.getElem_replicate]
    apply List.ext_getElem
    · simp [resize]; omega
    · intro j h3 h4
      simp

theorem blankGrid_shape (s : Nat) : Shape (blankGrid s) s s := by
  refine ⟨by simp [blankGrid], ?_⟩
  intro row hrow
  rw [blankGrid, List.mem_replicate] at hrow
  rw [hrow.2, List.length_replicate]

theorem blankGrid_cell (s : Nat) {i j : Nat} (hi : i < s) (hj : j < s) :
    cell (blankGrid s) i j = some NOT_DROW := by
  obtain ⟨h1, h2, e⟩ := cell_of_lt (blankGrid_shape s) hi hj
  rw [e]
  simp [blankGrid]

theorem inTile_origin (N : Nat) (S : List Point) (d : Nat) {i j : Nat}
    (hi : i < N ^ d) (hj : j < N ^ d) : inTile N S d 0 0 i j = drawnAt N S d i j := by
  simp [inTile, hi, hj]

/-- The built grid: it exists, it is a square of side `size ^ dims`, and cell `(i, j)`
is drawn exactly when `drawnAt` says so and blank otherwise. -/
theorem builtGrid_spec (N : Nat) (S : List Point) (hN : 0 < N)
    (hS : ∀ p ∈ S, p.row < N ∧ p.col < N) (d : Nat) :
    ∃ g, builtGrid N S d = some g ∧ Shape g (N ^ d) (N ^ d) ∧
      ∀ i j, i < N ^ d → j < N ^ d →
        cell g i j = some (if drawnAt N S d i j then TO_DROW else NOT_DROW) := by
  have hb : Shape (resetVector [] (N ^ d)) (N ^ d) (N ^ d) := by
    rw [resetVector_eq]; exact blankGrid_shape _
  obtain ⟨g, e, s, c⟩ := setVector_spec N S hN hS (N ^ d) (N ^ d) d 0 0 _ hb (by omega) (by omega)
  refine ⟨g, e, s, ?_⟩
  intro i j hi hj
  rw [c, inTile_origin N S d hi hj, resetVector_eq, blankGrid_cell _ hi hj]
  cases drawnAt N S d i j <;> simp

theorem subTile_shape {g : Grid} {h w : Nat} (hs : Shape g h w) {r0 c0 m : Nat}
    (hr : r0 + m ≤ h) (hc : c0 + m ≤ w) : Shape (subTile g r0 c0 m) m m := by
  have hl := hs.1
  refine ⟨by simp [subTile]; omega, ?_⟩
  intro row hrow
  simp only [subTile, List.mem_map] at hrow
  obtain ⟨row0, hmem, rfl⟩ := hrow
  have h0 : row0 ∈ g := List.mem_of_mem_drop (List.mem_of_mem_take hmem)
  have := hs.2 row0 h0
  simp; omega

theorem subTile_cell {g : Grid} {h w : Nat} (hs : Shape g h w) {r0 c0 m : Nat}
    (hr : r0 + m ≤ h) {i j : Nat} (hi : i < m) (hj : j < m) :
    cell (subTile g r0 c0 m) i j = cell g (r0 + i) (c0 + j) := by
  have hl := hs.1
  have hi2 : r0 + i < g.length := by omega
  have hrow : (g[r0 + i]).length = w := hs.row_length hi2
  unfold cell subTile
  simp [List.getElem?_map, List.getElem?_take, hi, hj, List.getElem?_drop,
    List.getElem?_eq_getElem hi2]

theorem baseSize_pos (k : Kind) : 0 < baseSize k := by
  cases k <;> decide

theorem stencil_lt (k : Kind) : ∀ p ∈ stencil k, p.row < baseSize k ∧ p.col < baseSize k := by
  cases k <;> decide

theorem drawnAt_block (N : Nat) (S : List Point) (d : Nat) {dr dc i j : Nat}
    (hi : i < N ^ d) (hj : j < N ^ d) :
    drawnAt N S (d + 1) (N ^ d * dr + i) (N ^ d * dc + j)
      = (decide ((⟨dr, dc⟩ : Point) ∈ S) && drawnAt N S d i j) := by
  have hM : 0 < N ^ d := by omega
  have hx : (N ^ d * dr + i) / N ^ d = dr := (div_eq_iff_block hM _ _).2 ⟨by omega, by omega⟩
  have hy : (N ^ d * dc + j) / N ^ d = dc := (div_eq_iff_block hM _ _).2 ⟨by omega, by omega⟩
  have hx2 : (N ^ d * dr + i) % N ^ d = i := by rw [mod_eq_sub_block hx]; omega
  have hy2 : (N ^ d * dc + j) % N ^ d = j := by rw [mod_eq_sub_block hy]; omega
  simp only [drawnAt, hx, hy, hx2, hy2]

theorem block_le_pow {N : Nat} (d : Nat) {a : Nat} (ha : a < N) :
    N ^ d * a + N ^ d ≤ N ^ (d + 1) := by
  have : N ^ d * (a + 1) ≤ N ^ d * N := Nat.mul_le_mul_left _ ha
  rw [pow_succ]; rw [Nat.mul_add, Nat.mul_one] at this; exact this

/-- Self-similarity for any base size and points inside the base tile: the sub-tile of
the grid of depth `d + 1` at block `(dr, dc)` is the grid of depth `d` when the block is
one of the points, and blank otherwise. -/
theorem builtGrid_subTile (N : Nat) (S : List Point) (hN : 0 < N)
    (hS : ∀ p ∈ S, p.row < N ∧ p.col < N) (d : Nat) :
    ∃ g g0, builtGrid N S (d + 1) = some g ∧ builtGrid N S d = some g0 ∧
      ∀ dr dc, dr < N → dc < N →
        subTile g (N ^ d * dr) (N ^ d * dc) (N ^ d)
          = if (⟨dr, dc⟩ : Point) ∈ S then g0 else blankGrid (N ^ d) := by
  obtain ⟨g, e, s, c⟩ := builtGrid_spec N S hN hS (d + 1)
  obtain ⟨g0, e0, s0, c0⟩ := builtGrid_spec N S hN hS d
  refine ⟨g, g0, e, e0, ?_⟩
  intro dr dc hdr hdc
  have br := block_le_pow d hdr
  have bc := block_le_pow d hdc
  have hsub : Shape (subTile g (N ^ d * dr) (N ^ d * dc) (N ^ d)) (N ^ d) (N ^ d) :=
    subTile_shape s br bc
  have hcell : ∀ i j, i < N ^ d → j < N ^ d →
      cell (subTile g (N ^ d * dr) (N ^ d * dc) (N ^ d)) i j
        = some (if (decide ((⟨dr, dc⟩ : Point) ∈ S) && drawnAt N S d i j)
            then TO_DROW else NOT_DROW) := by
    intro i j hi hj
    rw [subTile_cell s br hi hj, c _ _ (by omega) (by omega), drawnAt_block N S d hi hj]
  by_cases hmem : (⟨dr, dc⟩ : Point) ∈ S
  · rw [if_pos hmem]
    apply grid_ext hsub s0
    intro i j hi hj
    rw [hcell i j hi hj, c0 i j hi hj]
    simp [hmem]
  · rw [if_neg hmem]
    apply grid_ext hsub (blankGrid_shape _)
    intro i j hi hj
    rw [hcell i j hi hj, blankGrid_cell _ hi hj]
    simp [hmem]

theorem powInt_eq {b e : Nat} (h : b ^ e ≤ INT_MAX) : powInt b e = some (b ^ e) := by
  simp [powInt, h]

theorem intOf_eq {x : Nat} (h : x ≤ INT_MAX) : intOf x = some x := by
  simp [intOf, h]

/-- When a power fits an `int`, so does every smaller power of the same base: the
values of `diff_idx` inside `setVector` fit when the side of the grid does. -/
theorem powInt_of_le {b d e : Nat} (hb : 0 < b) (he : e ≤ d) (h : b ^ d ≤ INT_MAX) :
    powInt b e = some (b ^ e) :=
  powInt_eq (Nat.le_trans (Nat.pow_le_pow_right hb he) h)

theorem setVectorLoop_congr (step1 step2 : Point → Grid → Option Grid) (ps : List Point)
    (h : ∀ p ∈ ps, ∀ g, step1 p g = step2 p g) (f : Grid) :
    setVectorLoop step1 ps f = setVectorLoop step2 ps f := by
  induction ps generalizing f with
  | nil => rfl
  | cons p rest ih =>
    simp only [setVectorLoop, h p (List.mem_cons_self _ _)]
    cases step2 p f with
    | none => rfl
    | some f1 => exact ih (fun q hq => h q (List.mem_cons_of_mem _ hq)) f1

/-- While the tile of the call ends at an `int`, `setVector` on ints computes what
`setVector` with exact powers computes: inside the tile no power and no sum leaves the
`int` range. -/
theorem setVectorInt_eq (N : Nat) (S : List Point) (hN : 0 < N)
    (hS : ∀ p ∈ S, p.row < N ∧ p.col < N) :
    ∀ (d r c : Nat) (g : Grid), r + N ^ d ≤ INT_MAX → c + N ^ d ≤ INT_MAX →
      setVectorInt r c N d S g = setVector r c N d S g := by
  intro d
  induction d with
  | zero => intro r c g _ _; rfl
  | succ d ih =>
    intro r c g hr hc
    have hM : 0 < N ^ d := pow_pos hN d
    have hle : N ^ d ≤ N ^ (d + 1) := Nat.pow_le_pow_right hN (Nat.le_succ d)
    have hfit : N ^ d ≤ INT_MAX := by omega
    simp only [setVectorInt, setVector, powInt_eq hfit]
    apply setVectorLoop_congr
    intro p hp g0
    obtain ⟨hpr, hpc⟩ := hS p hp
    have br := block_le_pow d hpr
    have bc := block_le_pow d hpc
    rw [intOf_eq (show r + N ^ d * p.row ≤ INT_MAX by omega),
      intOf_eq (show c + N ^ d * p.col ≤ INT_MAX by omega)]
    exact ih _ _ g0 (by omega) (by omega)

/-- While the side fits an `int`, the build on ints is the build with exact powers. -/
theorem builtGridInt_eq {N : Nat} {S : List Point} (hN : 0 < N)
    (hS : ∀ p ∈ S, p.row < N ∧ p.col < N) {d : Nat} (h : N ^ d ≤ INT_MAX) :
    builtGridInt N S d = builtGrid N S d := by
  simp only [builtGridInt, builtGrid, powInt_eq h]
  exact setVectorInt_eq N S hN hS d 0 0 _ (by omega) (by omega)

theorem builtGridInt_none {N : Nat} (S : List Point) {d : Nat} (h : INT_MAX < N ^ d) :
    builtGridInt N S d = none := by
  have : ¬ N ^ d ≤ INT_MAX := by omega
  simp [builtGridInt, powInt, this]

/-- A grid built on ints has a side that fits an `int`, and is the grid built with
exact powers. -/
theorem builtGridInt_some {N : Nat} {S : List Point} (hN : 0 < N)
    (hS : ∀ p ∈ S, p.row < N ∧ p.col < N) {d : Nat} {g : Grid}
    (h : builtGridInt N S d = some g) : N ^ d ≤ INT_MAX ∧ builtGrid N S d = some g := by
  by_cases hfit : N ^ d ≤ INT_MAX
  · rw [builtGridInt_eq hN hS hfit] at h
    exact ⟨hfit, h⟩
  · rw [builtGridInt_none S (by omega)] at h
    exact absurd h (by simp)

theorem builtGridInt_kind_eq (k : Kind) {d : Nat} (h : baseSize k ^ d ≤ INT_MAX) :
    builtGridInt (baseSize k) (stencil k) d = builtGrid (baseSize k) (stencil k) d :=
  builtGridInt_eq (baseSize_pos k) (stencil_lt k) h

theorem builtGridInt_kind_some (k : Kind) {d : Nat} {g : Grid}
    (h : builtGridInt (baseSize k) (stencil k) d = some g) :
    baseSize k ^ d ≤ INT_MAX ∧ builtGrid (baseSize k) (stencil k) d = some g :=
  builtGridInt_some (baseSize_pos k) (stencil_lt k) h

theorem builtGridSubTile_all (k : Kind) (e : Nat) :
    ∃ g g0, builtGrid (baseSize k) (stencil k) (e + 1) = some g ∧
      builtGrid (baseSize k) (stencil k) e = some g0 ∧
      ∀ dr dc, dr < baseSize k → dc < baseSize k →
        subTile g (baseSize k ^ e * dr) (baseSize k ^ e * dc) (baseSize k ^ e)
          = if (⟨dr, dc⟩ : Point) ∈ stencil k then g0 else blankGrid (baseSize k ^ e) :=
  builtGrid_subTile (baseSize k) (stencil k) (baseSize_pos k) (stencil_lt k) e

/-- C1. Self-similarity: for each of the three fractals and every depth `d > 1`, cut the
grid produced by `resetVector(N ^ d)` and `setVector(0, 0, N, d, points)` into `N * N`
sub-tiles of side `N ^ (d - 1)`; the sub-tile at block `(dr, dc)` equals the grid built
for depth `d - 1` when `(dr, dc)` is one of the points of the fractal, and is all blank
when it is not.  The grid is produced exactly when its side fits an `int`. -/
theorem self_similarity (k : Kind) (d : Nat) (hd : 1 < d) :
    (baseSize k ^ d ≤ INT_MAX → ∃ g, builtGridInt (baseSize k) (stencil k) d = some g) ∧
    (INT_MAX < baseSize k ^ d → builtGridInt (baseSize k) (stencil k) d = none) ∧
    ∀ g, builtGridInt (baseSize k) (stencil k) d = some g →
      ∃ g0, builtGridInt (baseSize k) (stencil k) (d - 1) = some g0 ∧
        ∀ dr dc, dr < baseSize k → dc < baseSize k →
          ((⟨dr, dc⟩ : Point) ∈ stencil k →
            subTile g (baseSize k ^ (d - 1) * dr) (baseSize k ^ (d - 1) * dc)
              (baseSize k ^ (d - 1)) = g0) ∧
          ((⟨dr, dc⟩ : Point) ∉ stencil k →
            subTile g (baseSize k ^ (d - 1) * dr) (baseSize k ^ (d - 1) * dc)
              (baseSize k ^ (d - 1)) = blankGrid (baseSize k ^ (d - 1))) := by
  obtain ⟨e, rfl⟩ : ∃ e, d = e + 1 := ⟨d - 1, by omega⟩
  obtain ⟨g1, g0, h1, h0, hsub⟩ :=
    builtGridSubTile_all k e
  refine ⟨fun hfit => ⟨g1, by rw [builtGridInt_kind_eq _ hfit]; exact h1⟩,
    fun hbig => builtGridInt_none _ hbig, ?_⟩
  intro g hg
  obtain ⟨hfit, hg1⟩ := builtGridInt_kind_some _ hg
  have hgg : g1 = g := Option.some.inj (h1.symm.trans hg1)
  subst hgg
  have hfit0 : baseSize k ^ e ≤ INT_MAX :=
    Nat.le_trans (Nat.pow_le_pow_right (baseSize_pos k) (Nat.le_succ e)) hfit
  refine ⟨g0, by rw [Nat.add_sub_cancel, builtGridInt_kind_eq k hfit0]; exact h0, ?_⟩
  intro dr dc hdr hdc
  have := hsub dr dc hdr hdc
  simp only [Nat.add_sub_cancel]
  constructor
  · intro hmem; rw [this, if_pos hmem]
  · intro hmem; rw [this, if_neg hmem]

/-- Self-similarity of the carpet at depth 2, whose grid is produced. -/
theorem self_similarity_witness :
    1 < 2 ∧
    ((baseSize Kind.SierpinskiCarpet ^ 2 ≤ INT_MAX →
        ∃ g, builtGridInt (baseSize Kind.SierpinskiCarpet) (stencil Kind.SierpinskiCarpet) 2
          = some g) ∧
      (INT_MAX < baseSize Kind.SierpinskiCarpet ^ 2 →
        builtGridInt (baseSize Kind.SierpinskiCarpet) (stencil Kind.SierpinskiCarpet) 2
          = none) ∧
      ∀ g, builtGridInt (baseSize Kind.SierpinskiCarpet) (stencil Kind.SierpinskiCarpet) 2
          = some g →
        ∃ g0, builtGridInt (baseSize Kind.SierpinskiCarpet) (stencil Kind.SierpinskiCarpet)
            (2 - 1) = some g0 ∧
          ∀ dr dc, dr < baseSize Kind.SierpinskiCarpet → dc < baseSize Kind.SierpinskiCarpet →
            ((⟨dr, dc⟩ : Point) ∈ stencil Kind.SierpinskiCarpet →
              subTile g (baseSize Kind.SierpinskiCarpet ^ (2 - 1) * dr)
                (baseSize Kind.SierpinskiCarpet ^ (2 - 1) * dc)
                (baseSize Kind.SierpinskiCarpet ^ (2 - 1)) = g0) ∧
            ((⟨dr, dc⟩ : Point) ∉ stencil Kind.SierpinskiCarpet →
              subTile g (baseSize Kind.SierpinskiCarpet ^ (2 - 1) * dr)
                (baseSize Kind.SierpinskiCarpet ^ (2 - 1) * dc)
                (baseSize Kind.SierpinskiCarpet ^ (2 - 1))
                = blankGrid (baseSize Kind.SierpinskiCarpet ^ (2 - 1)))) ∧
    builtGridInt CARPET_SIZE carpetPoints 2
      = some ["#########".toList, "# ## ## #".toList, "#########".toList,
          "###   ###".toList, "# #   # #".toList, "###   ###".toList,
          "#########".toList, "# ## ## #".toList, "#########".toList] ∧
    builtGridInt CARPET_SIZE carpetPoints 20 = none :=
  ⟨by decide, self_similarity Kind.SierpinskiCarpet 2 (by decide), by decide, by decide⟩

theorem count_eq_sum (l : List Char) (a : Char) :
    l.count a = ∑ j ∈ Finset.range l.length, if l[j]? = some a then 1 else 0 := by
  induction l with
  | nil => simp
  | cons x xs ih =>
    rw [List.length_cons, Finset.sum_range_succ', List.count_cons, ih]
    simp only [List.getElem?_cons_succ, List.getElem?_cons_zero, Option.some.injEq, beq_iff_eq]

theorem sum_map_eq_sum (g : Grid) (f : List Char → Nat) :
    (g.map f).sum = ∑ i ∈ Finset.range g.length, f (g[i]?.getD []) := by
  induction g with
  | nil => simp
  | cons x xs ih =>
    rw [List.length_cons, Finset.sum_range_succ', List.map_cons, List.sum_cons, ih]
    simp only [List.getElem?_cons_succ, List.getElem?_cons_zero, Option.getD_some]
    omega

theorem countDrawn_eq_sum {g : Grid} {h w : Nat} (hs : Shape g h w) :
    countDrawn g
      = ∑ i ∈ Finset.range h, ∑ j ∈ Finset.range w, if cell g i j = some TO_DROW then 1 else 0 := by
  unfold countDrawn
  rw [sum_map_eq_sum, hs.1]
  apply Finset.sum_congr rfl
  intro i hi
  have hi2 : i < g.length := by rw [hs.1]; exact Finset.mem_range.1 hi
  have hrow : g[i]? = some (g[i]) := List.getElem?_eq_getElem hi2
  rw [hrow, Option.getD_some, count_eq_sum, hs.row_length hi2]
  apply Finset.sum_congr rfl
  intro j _
  simp only [cell, hrow]

theorem sum_range_block (M N : Nat) (f : Nat → Nat) :
    ∑ x ∈ Finset.range (M * N), f x
      = ∑ a ∈ Finset.range N, ∑ i ∈ Finset.range M, f (M * a + i) := by
  induction N with
  | zero => simp
  | succ n ih =>
    rw [Nat.mul_succ, Finset.sum_range_add, ih, Finset.sum_range_succ]

theorem drawnTotal_succ (N : Nat) (S : List Point) (d : Nat) :
    drawnTotal N S (d + 1) = stencilBlocks N S * drawnTotal N S d := by
  unfold drawnTotal stencilBlocks
  rw [pow_succ, sum_range_block]
  simp only [sum_range_block]
  rw [Finset.sum_mul]
  apply Finset.sum_congr rfl
  intro a _
  rw [Finset.sum_comm, Finset.sum_mul]
  apply Finset.sum_congr rfl
  intro b _
  rw [Finset.mul_sum]
  apply Finset.sum_congr rfl
  intro i hi
  rw [Finset.mul_sum]
  apply Finset.sum_congr rfl
  intro j hj
  rw [drawnAt_block N S d (Finset.mem_range.1 hi) (Finset.mem_range.1 hj)]
  by_cases h1 : (⟨a, b⟩ : Point) ∈ S <;> simp [h1]

theorem drawnTotal_eq_pow (N : Nat) (S : List Point) (d : Nat) :
    drawnTotal N S d = stencilBlocks N S ^ d := by
  induction d with
  | zero => simp [drawnTotal, drawnAt]
  | succ d ih => rw [drawnTotal_succ, ih, pow_succ, Nat.mul_comm]

/-- The number of drawn cells of the built grid, for any base size and points inside the
base tile. -/
theorem builtGrid_countDrawn (N : Nat) (S : List Point) (hN : 0 < N)
    (hS : ∀ p ∈ S, p.row < N ∧ p.col < N) (d : Nat) :
    ∃ g, builtGrid N S d = some g ∧ countDrawn g = stencilBlocks N S ^ d := by
  obtain ⟨g, e, s, c⟩ := builtGrid_spec N S hN hS d
  refine ⟨g, e, ?_⟩
  rw [countDrawn_eq_sum s, ← drawnTotal_eq_pow, drawnTotal]
  apply Finset.sum_congr rfl
  intro i hi
  apply Finset.sum_congr rfl
  intro j hj
  rw [c i j (Finset.mem_range.1 hi) (Finset.mem_range.1 hj)]
  cases drawnAt N S d i j <;> simp [TO_DROW, NOT_DROW]

theorem stencilBlocks_eq_length (k : Kind) :
    stencilBlocks (baseSize k) (stencil k) = (stencil k).length := by
  cases k <;> decide

theorem toPrintRow_eq (row : List Char) (n : Nat) (hn : n ≤ row.length) :
    toPrintRow row n = some (row.take n) := by
  induction n with
  | zero => simp [toPrintRow]
  | succ n ih =>
    have hlt : n < row.length := hn
    simp only [toPrintRow, ih (Nat.le_of_lt hlt), List.getElem?_eq_getElem hlt]
    rw [List.take_succ, List.getElem?_eq_getElem hlt]
    rfl

theorem toPrintRows_eq {g : Grid} {h w : Nat} (hs : Shape g h w) (n : Nat) (hn : n ≤ h) :
    toPrintRows g w n = some (((g.take n).map (fun row => row ++ ['\n'])).flatten) := by
  induction n with
  | zero => simp [toPrintRows]
  | succ n ih =>
    have hlt : n < g.length := by rw [hs.1]; exact hn
    have hrow : (g[n]).length = w := hs.row_length hlt
    have hline : toPrintRow (g[n]) w = some (g[n]) := by
      rw [toPrintRow_eq _ _ (by omega), ← hrow, List.take_length]
    have e : ((g.take (n + 1)).map (fun row => row ++ ['\n'])).flatten
        = ((g.take n).map (fun row => row ++ ['\n'])).flatten ++ g[n] ++ ['\n'] := by
      rw [List.take_succ, List.getElem?_eq_getElem hlt]
      simp only [Option.toList, List.map_append, List.map_cons, List.map_nil,
        List.flatten_append, List.flatten_cons, List.flatten_nil, List.append_nil,
        List.append_assoc]
    simp only [toPrintRows, ih (Nat.le_of_lt hn), List.getElem?_eq_getElem hlt, hline, e]

/-- On a square grid of side `s`, `toPrint(s)` returns and prints `render`. -/
theorem toPrint_eq {g : Grid} {s : Nat} (hs : Shape g s s) : toPrint g s = some (render g) := by
  unfold toPrint render
  rw [toPrintRows_eq hs s (Nat.le_refl _)]
  have : g.take s = g := by rw [← hs.1, List.take_length]
  simp [this]

theorem render_length {g : Grid} {h w : Nat} (hs : Shape g h w) :
    (render g).length = h * (w + 1) + 1 := by
  unfold render
  obtain ⟨hl, hr⟩ := hs
  subst hl
  induction g with
  | nil => simp
  | cons row rest ih =>
    have h1 := hr row (List.mem_cons_self _ _)
    have h2 := ih (fun r hr2 => hr r (List.mem_cons_of_mem _ hr2))
    simp only [List.map_cons, List.flatten_cons, List.length_append, List.length_cons,
      List.length_nil, List.length_singleton] at h2 ⊢
    rw [Nat.succ_mul]
    omega

theorem mem_render {g : Grid} {ch : Char} (hch : ch ∈ render g) :
    ch = '\n' ∨ ∃ row ∈ g, ch ∈ row := by
  unfold render at hch
  simp only [List.mem_append, List.mem_flatten, List.mem_map, List.mem_singleton] at hch
  rcases hch with ⟨l, ⟨row, hrow, rfl⟩, hmem⟩ | h
  · rcases List.mem_append.1 hmem with h1 | h1
    · exact Or.inr ⟨row, hrow, h1⟩
    · exact Or.inl (List.mem_singleton.1 h1)
  · exact Or.inl h

/-- C6. Renderer format: on a square grid of side `s`, `toPrint(s)` prints the rows
from top to bottom, each row as its `s` cells in column order followed by one line
terminator, and one more line terminator at the end; that is `s * (s + 1) + 1` chars,
and when every cell is `'#'` or `' '` the text holds nothing but `'#'`, `' '` and the
line terminator. -/
theorem toPrint_format (g : Grid) (s : Nat) (hs : Shape g s s) :
    ∃ out, toPrint g s = some out ∧
      out = (g.map (fun row => row ++ ['\n'])).flatten ++ ['\n'] ∧
      (∀ row ∈ g, row.length = s) ∧ g.length = s ∧
      out.length = s * (s + 1) + 1 ∧
      ((∀ row ∈ g, ∀ ch ∈ row, ch = '#' ∨ ch = ' ') →
        ∀ ch ∈ out, ch = '#' ∨ ch = ' ' ∨ ch = '\n') := by
  refine ⟨render g, toPrint_eq hs, rfl, hs.2, hs.1, render_length hs, ?_⟩
  intro hcells ch hch
  rcases mem_render hch with h | ⟨row, hrow, hmem⟩
  · exact Or.inr (Or.inr h)
  · rcases hcells row hrow ch hmem with h | h
    · exact Or.inl h
    · exact Or.inr (Or.inl h)

/-- The format of `toPrint` on the triangle grid of depth 1: two rows of two cells. -/
theorem toPrint_format_witness :
    Shape ["##".toList, "# ".toList] 2 2 ∧
    (∃ out, toPrint ["##".toList, "# ".toList] 2 = some out ∧
      out = (["##".toList, "# ".toList].map (fun row => row ++ ['\n'])).flatten ++ ['\n'] ∧
      (∀ row ∈ ["##".toList, "# ".toList], row.length = 2) ∧
      ["##".toList, "# ".toList].length = 2 ∧
      out.length = 2 * (2 + 1) + 1 ∧
      ((∀ row ∈ ["##".toList, "# ".toList], ∀ ch ∈ row, ch = '#' ∨ ch = ' ') →
        ∀ ch ∈ out, ch = '#' ∨ ch = ' ' ∨ ch = '\n')) ∧
    toPrint ["##".toList, "# ".toList] 2 = some "##\n# \n\n".toList :=
  ⟨⟨rfl, by decide⟩, toPrint_format ["##".toList, "# ".toList] 2 ⟨rfl, by decide⟩, by decide⟩

theorem makeFractal_indexOf (k : Kind) (d : Nat) :
    makeFractal (indexOf k) d = some ⟨k, d, blankGrid (baseSize k ^ d)⟩ := by
  cases k <;> simp [makeFractal, indexOf, CARPET_INDEX, TRIANGLE_INDEX, VICSEK_INDEX,
    newSierpinskiCarpet, newSierpinskiTriangle, newVicsekFractal, resetVector_eq, baseSize]

theorem makeAndPrint_eq (k : Kind) (d : Nat) (f : Grid) :
    makeAndPrint ⟨k, d, f⟩ = makeAndPrintWith (baseSize k) (stencil k) ⟨k, d, f⟩ := by
  cases k <;> rfl

/-- A fractal fresh from its constructor: `makeAndPrint` returns, the grid it leaves is
the built grid, a square of side `baseSize ^ dims`, and the text is its rendering. -/
theorem makeAndPrint_new (k : Kind) (d : Nat) :
    ∃ g, builtGrid (baseSize k) (stencil k) d = some g ∧
      Shape g (baseSize k ^ d) (baseSize k ^ d) ∧
      makeAndPrint ⟨k, d, blankGrid (baseSize k ^ d)⟩ = some (⟨k, d, g⟩, render g) := by
  obtain ⟨g, e, s, _⟩ := builtGrid_spec (baseSize k) (stencil k) (baseSize_pos k) (stencil_lt k) d
  refine ⟨g, e, s, ?_⟩
  rw [makeAndPrint_eq]
  unfold makeAndPrintWith
  simp only
  have e2 : setVector 0 0 (baseSize k) d (stencil k) (blankGrid (baseSize k ^ d)) = some g := by
    rw [← resetVector_eq []]; exact e
  rw [e2]
  simp only [toPrint_eq s]

theorem index_cases {index : Int} (h : index = 1 ∨ index = 2 ∨ index = 3) :
    ∃ k, index = indexOf k ∧ baseSize k = (if index = 2 then 2 else 3) := by
  rcases h with h | h | h
  · exact ⟨Kind.SierpinskiCarpet, h, by subst h; rfl⟩
  · exact ⟨Kind.SierpinskiTriangle, h, by subst h; rfl⟩
  · exact ⟨Kind.VicsekFractal, h, by subst h; rfl⟩

/-- C2. Drawn-cell count: for each of the three fractals and every depth from 1 to 6 the
built grid exists and the number of its cells that hold `'#'` is the number of points
of the fractal to the power of the depth: `8 ^ d` for the carpet, `3 ^ d` for the
triangle, `5 ^ d` for Vicsek. -/
theorem drawn_cell_count (k : Kind) (d : Nat) (_h1 : 1 ≤ d) (_h6 : d ≤ 6) :
    ∃ g, builtGrid (baseSize k) (stencil k) d = some g ∧
      countDrawn g = (stencil k).length ^ d ∧
      countDrawn g =
        (match k with
          | Kind.SierpinskiCarpet => 8
          | Kind.SierpinskiTriangle => 3
          | Kind.VicsekFractal => 5) ^ d := by
  obtain ⟨g, e, c⟩ :=
    builtGrid_countDrawn (baseSize k) (stencil k) (baseSize_pos k) (stencil_lt k) d
  rw [stencilBlocks_eq_length] at c
  refine ⟨g, e, c, ?_⟩
  rw [c]
  cases k <;> rfl

theorem drawn_cell_count_witness :
    (1 ≤ 2 ∧ 2 ≤ 6) ∧
    (∃ g, builtGrid (baseSize Kind.SierpinskiCarpet) (stencil Kind.SierpinskiCarpet) 2 = some g ∧
      countDrawn g = (stencil Kind.SierpinskiCarpet).length ^ 2 ∧
      countDrawn g = 8 ^ 2) ∧
    (builtGrid CARPET_SIZE carpetPoints 2).map countDrawn = some 64 ∧
    (builtGrid CARPET_SIZE carpetPoints 2).map (fun g => (g.map List.length).sum) = some 81 :=
  ⟨⟨by decide, by decide⟩, drawn_cell_count Kind.SierpinskiCarpet 2 (by decide) (by decide),
    by decide, by decide⟩

/-- C3. Grid shape: for index 1, 2 or 3 and every depth from 1 to 6, `makeFractal`
returns a fractal whose grid has `baseSize ^ d` rows of `baseSize ^ d` cells each, with
base size 3 for the carpet (1) and Vicsek (3) and 2 for the triangle (2); `makeAndPrint`
returns on it and leaves a grid of the same shape. -/
theorem grid_shape (index : Int) (d : Nat) (hk : index = 1 ∨ index = 2 ∨ index = 3)
    (_h1 : 1 ≤ d) (_h6 : d ≤ 6) :
    ∃ fr, makeFractal index d = some fr ∧
      fr.f.length = (if index = 2 then 2 else 3) ^ d ∧
      (∀ row ∈ fr.f, row.length = (if index = 2 then 2 else 3) ^ d) ∧
      ∃ fr2 text, makeAndPrint fr = some (fr2, text) ∧
        fr2.f.length = (if index = 2 then 2 else 3) ^ d ∧
        (∀ row ∈ fr2.f, row.length = (if index = 2 then 2 else 3) ^ d) := by
  obtain ⟨k, hik, hN⟩ := index_cases hk
  obtain ⟨g, _, s, e⟩ := makeAndPrint_new k d
  rw [← hN, hik]
  have sb := blankGrid_shape (baseSize k ^ d)
  exact ⟨_, makeFractal_indexOf k d, sb.1, sb.2, _, _, e, s.1, s.2⟩

theorem grid_shape_witness :
    (((2 : Int) = 1 ∨ (2 : Int) = 2 ∨ (2 : Int) = 3) ∧ 1 ≤ 3 ∧ 3 ≤ 6) ∧
    ∃ fr, makeFractal 2 3 = some fr ∧
      fr.f.length = (if (2 : Int) = 2 then 2 else 3) ^ 3 ∧
      (∀ row ∈ fr.f, row.length = (if (2 : Int) = 2 then 2 else 3) ^ 3) ∧
      ∃ fr2 text, makeAndPrint fr = some (fr2, text) ∧
        fr2.f.length = (if (2 : Int) = 2 then 2 else 3) ^ 3 ∧
        (∀ row ∈ fr2.f, row.length = (if (2 : Int) = 2 then 2 else 3) ^ 3) :=
  ⟨⟨by decide, by decide, by decide⟩, grid_shape 2 3 (by decide) (by decide) (by decide)⟩

/-- While the side fits an `int`, a request on ints runs as `makeFractal` followed by
`makeAndPrint`. -/
theorem makeAndPrintInt_eq (k : Kind) {d : Nat} (h : baseSize k ^ d ≤ INT_MAX) :
    makeAndPrintInt (indexOf k) d = makeAndPrint ⟨k, d, blankGrid (baseSize k ^ d)⟩ := by
  rw [makeAndPrint_eq]
  simp only [makeAndPrintInt, makeAndPrintWith, makeFractal_indexOf, powInt_eq h,
    resetVector_eq,
    setVectorInt_eq (baseSize k) (stencil k) (baseSize_pos k) (stencil_lt k) d 0 0 _
      (show 0 + baseSize k ^ d ≤ INT_MAX by omega)
      (show 0 + baseSize k ^ d ≤ INT_MAX by omega)]

theorem makeAndPrintInt_none (k : Kind) {d : Nat} (h : INT_MAX < baseSize k ^ d) :
    makeAndPrintInt (indexOf k) d = none := by
  have : ¬ baseSize k ^ d ≤ INT_MAX := by omega
  simp [makeAndPrintInt, makeFractal_indexOf, powInt, this]

/-- A request that runs on ints has a side that fits an `int`, and its result is the
one of `makeAndPrint` on the fractal the factory made. -/
theorem makeAndPrintInt_some (k : Kind) {d : Nat} {res : Fractal × List Char}
    (h : makeAndPrintInt (indexOf k) d = some res) :
    baseSize k ^ d ≤ INT_MAX ∧
      makeAndPrint ⟨k, d, blankGrid (baseSize k ^ d)⟩ = some res := by
  by_cases hfit : baseSize k ^ d ≤ INT_MAX
  · rw [makeAndPrintInt_eq k hfit] at h
    exact ⟨hfit, h⟩
  · rw [makeAndPrintInt_none k (by omega)] at h
    exact absurd h (by simp)

/-- What a request that runs on ints leaves: the built grid in the fractal of its kind
and depth, and the rendering of that grid as text. -/
theorem makeAndPrintInt_result (k : Kind) {d : Nat} {res : Fractal × List Char}
    (h : makeAndPrintInt (indexOf k) d = some res) :
    ∃ g, builtGrid (baseSize k) (stencil k) d = some g ∧
      Shape g (baseSize k ^ d) (baseSize k ^ d) ∧ res = (⟨k, d, g⟩, render g) := by
  obtain ⟨_, hrun⟩ := makeAndPrintInt_some k h
  obtain ⟨g, e, s, hnew⟩ := makeAndPrint_new k d
  rw [hnew] at hrun
  exact ⟨g, e, s, (Option.some.inj hrun).symm⟩

/-- C4. Depth-1 grids equal the stencil: at depth 1 the built grid of each fractal is
drawn exactly at the offsets that are points of the fractal and blank elsewhere; the
triangle grid has the rows `##` and `# `, the Vicsek grid the rows `# #`, ` # `, `# #`,
and the carpet grid the rows `###`, `# #`, `###`, whether taken from `builtGrid` or from
`makeFractal` followed by `makeAndPrint`. -/
theorem depth_one_grids :
    (∀ k : Kind, ∃ g, builtGrid (baseSize k) (stencil k) 1 = some g ∧
      g.length = baseSize k ∧ (∀ row ∈ g, row.length = baseSize k) ∧
      ∀ i, i < baseSize k → ∀ j, j < baseSize k →
        cell g i j = some (if (⟨i, j⟩ : Point) ∈ stencil k then '#' else ' ')) ∧
    builtGrid TRIANGLE_SIZE trianglePoints 1 = some ["##".toList, "# ".toList] ∧
    builtGrid VICSEK_SIZE vicsekPoints 1 = some ["# #".toList, " # ".toList, "# #".toList] ∧
    builtGrid CARPET_SIZE carpetPoints 1 = some ["###".toList, "# #".toList, "###".toList] ∧
    ((makeFractal 2 1).bind makeAndPrint).map (fun r => r.1.f)
      = some ["##".toList, "# ".toList] ∧
    ((makeFractal 3 1).bind makeAndPrint).map (fun r => r.1.f)
      = some ["# #".toList, " # ".toList, "# #".toList] ∧
    ((makeFractal 1 1).bind makeAndPrint).map (fun r => r.1.f)
      = some ["###".toList, "# #".toList, "###".toList] ∧
    cell ["###".toList, "# #".toList, "###".toList] 1 1 = some ' ' := by
  refine ⟨?_, by decide, by decide, by decide, by decide, by decide, by decide, by decide⟩
  intro k
  cases k
  · exact ⟨["###".toList, "# #".toList, "###".toList], by decide, by decide, by decide,
      by decide⟩
  · exact ⟨["##".toList, "# ".toList], by decide, by decide, by decide, by decide⟩
  · exact ⟨["# #".toList, " # ".toList, "# #".toList], by decide, by decide, by decide,
      by decide⟩

theorem writeCell_refines (sg : SpecGrid) (r c : Nat) (g1 : Grid)
    (h : writeCell (toChars sg) r c TO_DROW = some g1) : g1 = toChars (specMark sg r c) := by
  unfold writeCell at h
  unfold specMark
  have hrow : (toChars sg)[r]? = (sg[r]?).map (fun row => row.map glyph) := by
    simp [toChars]
  rw [hrow] at h
  cases hsg : sg[r]? with
  | none => rw [hsg] at h; simp at h
  | some srow =>
    rw [hsg] at h
    simp only [Option.map_some'] at h
    split at h
    · injection h with h
      rw [← h]
      simp [toChars, List.map_set, glyph, TO_DROW]
    · exact absurd h (by simp)

theorem foldl_refines (step : Point → Grid → Option Grid)
    (sstep : SpecGrid → Nat × Nat → SpecGrid) (ps : List Point)
    (hstep : ∀ p ∈ ps, ∀ sg g1, step p (toChars sg) = some g1 →
      g1 = toChars (sstep sg (p.row, p.col))) :
    ∀ sg g1, setVectorLoop step ps (toChars sg) = some g1 →
      g1 = toChars ((offsets ps).foldl sstep sg) := by
  induction ps with
  | nil =>
    intro sg g1 h
    simp only [setVectorLoop, Option.some.injEq] at h
    simp [offsets, ← h]
  | cons p rest ih =>
    intro sg g1 h
    simp only [setVectorLoop] at h
    cases hp : step p (toChars sg) with
    | none => rw [hp] at h; simp at h
    | some g2 =>
      rw [hp] at h
      simp only at h
      have e2 := hstep p (List.mem_cons_self _ _) sg g2 hp
      rw [e2] at h
      have := ih (fun q hq => hstep q (List.mem_cons_of_mem _ hq)) _ g1 h
      simpa [offsets] using this

/-- Whenever `setVector` returns, its grid is the one `fill` of the specification
gives for the same base size, offsets, depth and origin. -/
theorem setVector_refines (N : Nat) (S : List Point) :
    ∀ (d r c : Nat) (sg : SpecGrid) (g1 : Grid),
      setVector r c N d S (toChars sg) = some g1 →
        g1 = toChars (specFill ⟨N, offsets S⟩ d r c sg) := by
  intro d
  induction d with
  | zero =>
    intro r c sg g1 h
    exact writeCell_refines sg r c g1 (by simpa [setVector] using h)
  | succ d ih =>
    intro r c sg g1 h
    simp only [setVector] at h
    have := foldl_refines _
      (fun acc off => specFill ⟨N, offsets S⟩ d (r + off.1 * N ^ d) (c + off.2 * N ^ d) acc) S
      (by
        intro p _ sg0 g0 h0
        have := ih _ _ sg0 g0 h0
        simpa [Nat.mul_comm] using this)
      sg g1 h
    simpa [specFill] using this

theorem toChars_blank (s : Nat) :
    toChars (List.replicate s (List.replicate s CellState.Blank)) = blankGrid s := by
  simp [toChars, blankGrid, glyph, NOT_DROW]

/-- The built grid is the build of the specification for the same base size and
offsets. -/
theorem builtGrid_refines (N : Nat) (S : List Point) (d : Nat) (g : Grid)
    (h : builtGrid N S d = some g) : g = toChars (specBuild ⟨N, offsets S⟩ d) := by
  unfold builtGrid at h
  rw [resetVector_eq, ← toChars_blank] at h
  exact setVector_refines N S d 0 0 _ g h

theorem specLookup_indexOf (k : Kind) :
    specLookup (indexOf k) = some ⟨baseSize k, offsets (stencil k)⟩ := by
  cases k <;> decide

/-- C5. Factory composes lookup and build: for index 1, 2 or 3 and every depth
`d ≥ 1`, the grid that `makeFractal` followed by `makeAndPrint` computes shows the build
of the specification (blank grid of side `baseSize ^ d`, then `fill(0, 0, d)`) run on
the catalog entry of that index: carpet for 1, triangle for 2, Vicsek for 3, with the
base sizes and offsets of the table; the grid the constructor allocates has the side
`baseSize ^ d` of the same entry.  The two calls return exactly when that side fits an
`int`. -/
theorem factory_composes_lookup_build (index : Int) (d : Nat)
    (hk : index = 1 ∨ index = 2 ∨ index = 3) (_hd : 1 ≤ d) :
    ∃ p, specLookup index = some p ∧
      p = (if index = 1 then
            ⟨3, [(0, 0), (0, 1), (0, 2), (1, 0), (1, 2), (2, 0), (2, 1), (2, 2)]⟩
          else if index = 2 then ⟨2, [(0, 0), (0, 1), (1, 0)]⟩
          else ⟨3, [(0, 0), (0, 2), (1, 1), (2, 0), (2, 2)]⟩) ∧
      (p.baseSize ^ d ≤ INT_MAX → ∃ fr2 text, makeAndPrintInt index d = some (fr2, text)) ∧
      (INT_MAX < p.baseSize ^ d → makeAndPrintInt index d = none) ∧
      ∀ fr2 text, makeAndPrintInt index d = some (fr2, text) →
        fr2.f = toChars (specBuild p d) ∧
        ∃ fr, makeFractal index d = some fr ∧ makeAndPrint fr = some (fr2, text) ∧
          fr.f = toChars (List.replicate (p.baseSize ^ d)
            (List.replicate (p.baseSize ^ d) CellState.Blank)) := by
  obtain ⟨k, hik, _⟩ := index_cases hk
  subst hik
  refine ⟨⟨baseSize k, offsets (stencil k)⟩, specLookup_indexOf k, by cases k <;> decide,
    ?_, fun hbig => makeAndPrintInt_none k hbig, ?_⟩
  · intro hfit
    obtain ⟨g, _, _, hrun⟩ := makeAndPrint_new k d
    exact ⟨_, _, by rw [makeAndPrintInt_eq k hfit]; exact hrun⟩
  · intro fr2 text h
    obtain ⟨_, hrun⟩ := makeAndPrintInt_some k h
    obtain ⟨g, e, _, hres⟩ := makeAndPrintInt_result k h
    have hf : fr2.f = g := by
      have := congrArg (fun r => r.1.f) hres
      simpa using this
    refine ⟨by rw [hf]; exact builtGrid_refines _ _ d g e, _, makeFractal_indexOf k d, hrun,
      (toChars_blank _).symm⟩

/-- The Vicsek request of depth 2 runs and leaves the build of the specification. -/
theorem factory_composes_lookup_build_witness :
    (((3 : Int) = 1 ∨ (3 : Int) = 2 ∨ (3 : Int) = 3) ∧ 1 ≤ 2) ∧
    (∃ p, specLookup 3 = some p ∧
      p = (if (3 : Int) = 1 then
            ⟨3, [(0, 0), (0, 1), (0, 2), (1, 0), (1, 2), (2, 0), (2, 1), (2, 2)]⟩
          else if (3 : Int) = 2 then ⟨2, [(0, 0), (0, 1), (1, 0)]⟩
          else ⟨3, [(0, 0), (0, 2), (1, 1), (2, 0), (2, 2)]⟩) ∧
      (p.baseSize ^ 2 ≤ INT_MAX → ∃ fr2 text, makeAndPrintInt 3 2 = some (fr2, text)) ∧
      (INT_MAX < p.baseSize ^ 2 → makeAndPrintInt 3 2 = none) ∧
      ∀ fr2 text, makeAndPrintInt 3 2 = some (fr2, text) →
        fr2.f = toChars (specBuild p 2) ∧
        ∃ fr, makeFractal 3 2 = some fr ∧ makeAndPrint fr = some (fr2, text) ∧
          fr.f = toChars (List.replicate (p.baseSize ^ 2)
            (List.replicate (p.baseSize ^ 2) CellState.Blank))) ∧
    (makeAndPrintInt 3 1).map (fun r => r.1.f)
      = some ["# #".toList, " # ".toList, "# #".toList] ∧
    (specLookup 3).map (fun p => toChars (specBuild p 1))
      = some ["# #".toList, " # ".toList, "# #".toList] ∧
    makeAndPrintInt 3 20 = none :=
  ⟨⟨by decide, by decide⟩, factory_composes_lookup_build 3 2 (by decide) (by decide),
    by decide, by decide, by decide⟩

theorem request_runs (r : NeededFractal) (hr : r.type = 1 ∨ r.type = 2 ∨ r.type = 3) :
    ∃ fr fr2, makeFractal r.type r.dimension = some fr ∧
      makeAndPrint fr = some (fr2, block r) := by
  obtain ⟨k, hik, _⟩ := index_cases hr
  obtain ⟨g, _, _, hrun⟩ := makeAndPrint_new k r.dimension
  have hmk := makeFractal_indexOf k r.dimension
  rw [← hik] at hmk
  refine ⟨_, ⟨k, r.dimension, g⟩, hmk, ?_⟩
  rw [hrun]
  simp [block, printFractals, printFractalsLoop, hmk, hrun]

theorem printFractalsLoop_eq (l : List NeededFractal)
    (hl : ∀ r ∈ l, r.type = 1 ∨ r.type = 2 ∨ r.type = 3) (cout : List Char) :
    printFractalsLoop l cout = ⟨cout ++ (l.map block).flatten, [], none⟩ := by
  induction l generalizing cout with
  | nil => simp [printFractalsLoop]
  | cons r rest ih =>
    obtain ⟨fr, fr2, h1, h2⟩ := request_runs r (hl r (List.mem_cons_self _ _))
    simp only [printFractalsLoop, h1, h2]
    rw [ih (fun q hq => hl q (List.mem_cons_of_mem _ hq))]
    simp

/-- C7. Reverse processing order: for every list `v` of valid requests, `printFractals`
returns and the text it prints is the blocks of the requests of `v` one after the other
in reverse order, the last listed first; the block of a request is the text that
`makeAndPrint` prints on the fractal `makeFractal` makes for it. -/
theorem printFractals_reverse_order (v : List NeededFractal)
    (hv : ∀ r ∈ v, (r.type = 1 ∨ r.type = 2 ∨ r.type = 3) ∧
      1 ≤ r.dimension ∧ r.dimension ≤ 6) :
    printFractals v = ⟨(v.reverse.map block).flatten, [], none⟩ ∧
    ∀ r ∈ v, ∃ fr fr2, makeFractal r.type r.dimension = some fr ∧
      makeAndPrint fr = some (fr2, block r) := by
  constructor
  · unfold printFractals
    rw [printFractalsLoop_eq _ (fun r hr => (hv r (List.mem_reverse.1 hr)).1)]
    simp
  · intro r hr
    exact request_runs r (hv r hr).1

theorem printFractals_reverse_order_witness :
    (∀ r ∈ [(⟨1, 1⟩ : NeededFractal), ⟨2, 1⟩],
      (r.type = 1 ∨ r.type = 2 ∨ r.type = 3) ∧ 1 ≤ r.dimension ∧ r.dimension ≤ 6) ∧
    (printFractals [⟨1, 1⟩, ⟨2, 1⟩]
        = ⟨([(⟨1, 1⟩ : NeededFractal), ⟨2, 1⟩].reverse.map block).flatten, [], none⟩ ∧
      ∀ r ∈ [(⟨1, 1⟩ : NeededFractal), ⟨2, 1⟩],
        ∃ fr fr2, makeFractal r.type r.dimension = some fr ∧
          makeAndPrint fr = some (fr2, block r)) ∧
    block ⟨2, 1⟩ = "##\n# \n\n".toList ∧
    block ⟨1, 1⟩ = "###\n# #\n###\n\n".toList ∧
    (printFractals [⟨1, 1⟩, ⟨2, 1⟩]).cout = "##\n# \n\n###\n# #\n###\n\n".toList :=
  ⟨by decide, printFractals_reverse_order [⟨1, 1⟩, ⟨2, 1⟩] (by decide),
    by decide, by decide, by decide⟩

theorem readToken_inv (st st1 : LineState) (t : List Char) (hi : LineInv st)
    (h : readToken st t = some st1) : LineInv st1 := by
  unfold readToken at h
  simp only [MAX_INDEX, MIN_INDEX, MAX_DIM, MIN_DIM] at h
  split at h
  · exact absurd h (by simp)
  · split at h
    · exact absurd h (by simp)
    · split at h
      · rename_i h0
        split at h
        · exact absurd h (by simp)
        · rename_i hr
          injection h with h
          subst h
          simp only [Bool.or_eq_true, decide_eq_true_eq, not_or, not_lt] at hr
          refine Or.inr (Or.inl ⟨by simp [h0], hr.2, hr.1⟩)
      · rename_i h0
        split at h
        · exact absurd h (by simp)
        · rename_i hr
          injection h with h
          subst h
          simp only [Bool.or_eq_true, decide_eq_true_eq, not_or, not_lt, ne_eq,
            Decidable.not_not] at hr
          obtain ⟨⟨hn, h6⟩, h1⟩ := hr
          rcases hi with hi | hi | hi
          · exact absurd hi h0
          · exact Or.inr (Or.inr ⟨by simp [hn], hi.2.1, hi.2.2, h1, h6⟩)
          · omega

theorem readTokens_inv (toks : List (List Char)) :
    ∀ st st1, LineInv st → readTokens st toks = some st1 → LineInv st1 := by
  induction toks with
  | nil =>
    intro st st1 hi h
    simp only [readTokens, Option.some.injEq] at h
    rw [← h]; exact hi
  | cons t rest ih =>
    intro st st1 hi h
    simp only [readTokens] at h
    cases ht : readToken st t with
    | none => rw [ht] at h; simp at h
    | some st2 =>
      rw [ht] at h
      exact ih st2 st1 (readToken_inv st st2 t hi ht) h

theorem readLine_inRange (tok : List Char → List (List Char)) (line : List Char)
    (r : NeededFractal) (h : readLine tok line = some r) : InRange r := by
  unfold readLine at h
  split at h
  · exact absurd h (by simp)
  · cases hs : readTokens ⟨0, 0, 0⟩ (tok line) with
    | none => rw [hs] at h; simp at h
    | some st =>
      rw [hs] at h
      simp only at h
      split at h
      · exact absurd h (by simp)
      · rename_i h2
        injection h with h
        subst h
        have hinv := readTokens_inv _ _ _ (Or.inl rfl) hs
        simp only [ne_eq, Decidable.not_not] at h2
        rcases hinv with hi | hi | hi
        · omega
        · omega
        · exact ⟨hi.2.1, hi.2.2.1, hi.2.2.2.1, hi.2.2.2.2⟩

theorem readFileToVector_inRange (tok : List Char → List (List Char))
    (lines : List (List Char)) :
    ∀ v0 v, (∀ r ∈ v0, InRange r) → readFileToVector tok lines v0 = some v →
      ∀ r ∈ v, InRange r := by
  induction lines with
  | nil =>
    intro v0 v h0 h
    simp only [readFileToVector, Option.some.injEq] at h
    rw [← h]; exact h0
  | cons line rest ih =>
    intro v0 v h0 h
    simp only [readFileToVector] at h
    cases hl : readLine tok line with
    | none => rw [hl] at h; simp at h
    | some r0 =>
      rw [hl] at h
      apply ih (v0 ++ [r0]) v _ h
      intro r hr
      rcases List.mem_append.1 hr with h1 | h1
      · exact h0 r h1
      · rw [List.mem_singleton.1 h1]; exact readLine_inRange tok line r0 hl

theorem inRange_type {r : NeededFractal} (h : InRange r) :
    r.type = 1 ∨ r.type = 2 ∨ r.type = 3 := by
  obtain ⟨h1, h2, _⟩ := h
  omega

/-- C9. Validated requests are in range: whatever the tokenizer and the lines of the
file, if `readFileToVector` returns without a call of `inputErr`, every request it
appended has type from 1 to 3 and dimension from 1 to 6; `makeFractal` then succeeds on
each of them, `printFractals` returns, and `dealWithInput` on a file with these lines
does not end in the `exit` of `makeFractal`. -/
theorem validated_requests_in_range (tok : List Char → List (List Char))
    (lines : List (List Char)) (v : List NeededFractal)
    (h : readFileToVector tok lines [] = some v) :
    (∀ r ∈ v, 1 ≤ r.type ∧ r.type ≤ 3 ∧ 1 ≤ r.dimension ∧ r.dimension ≤ 6) ∧
    (∀ r ∈ v, makeFractal r.type r.dimension ≠ none) ∧
    (printFractals v).stop = none ∧
    ∀ path : CsvFile, path.lines = lines →
      (dealWithInput tok path).stop ≠ some Stop.factoryExit := by
  have hr : ∀ r ∈ v, InRange r :=
    readFileToVector_inRange tok lines [] v (fun r hr => absurd hr (List.not_mem_nil r)) h
  have hp : printFractals v = ⟨(v.reverse.map block).flatten, [], none⟩ := by
    unfold printFractals
    rw [printFractalsLoop_eq _ (fun r hm => inRange_type (hr r (List.mem_reverse.1 hm)))]
    simp
  refine ⟨hr, ?_, by rw [hp], ?_⟩
  · intro r hm
    obtain ⟨fr, _, h1, _⟩ := request_runs r (inRange_type (hr r hm))
    rw [h1]; simp
  · intro path hl
    unfold dealWithInput
    split
    · simp [inputErr]
    · rw [hl, h]
      simp only [hp]
      simp

theorem validated_requests_in_range_witness :
    readFileToVector commaTokens ["1,2".toList, "3,6".toList] [] = some [⟨1, 2⟩, ⟨3, 6⟩] ∧
    ((∀ r ∈ [(⟨1, 2⟩ : NeededFractal), ⟨3, 6⟩],
        1 ≤ r.type ∧ r.type ≤ 3 ∧ 1 ≤ r.dimension ∧ r.dimension ≤ 6) ∧
      (∀ r ∈ [(⟨1, 2⟩ : NeededFractal), ⟨3, 6⟩], makeFractal r.type r.dimension ≠ none) ∧
      (printFractals [⟨1, 2⟩, ⟨3, 6⟩]).stop = none ∧
      ∀ path : CsvFile, path.lines = ["1,2".toList, "3,6".toList] →
        (dealWithInput commaTokens path).stop ≠ some Stop.factoryExit) :=
  ⟨by decide, validated_requests_in_range commaTokens ["1,2".toList, "3,6".toList]
    [⟨1, 2⟩, ⟨3, 6⟩] (by decide)⟩

/-- The sizes the program computes for depths up to `MAX_DIM` are below `2 ^ 31`, so
the `int` of the source holds them and `std::pow` gives them exactly. -/
theorem pow_fits_int (k : Kind) (d : Nat) (hd : d ≤ MAX_DIM) : baseSize k ^ d < 2 ^ 31 := by
  have h3 : baseSize k ≤ 3 := by cases k <;> decide
  calc baseSize k ^ d ≤ 3 ^ d := Nat.pow_le_pow_left h3 d
    _ ≤ 3 ^ MAX_DIM := Nat.pow_le_pow_right (by decide) hd
    _ < 2 ^ 31 := by decide

/-- At depth 0 nothing is rejected: for the carpet
`makeFractal` returns a fractal, `makeAndPrint` builds the grid of one cell, which is
drawn, and prints it, and `printFractals` on this request returns after printing it. -/
theorem depth_zero_builds_single_cell :
    (makeFractal 1 0).bind makeAndPrint
      = some (⟨Kind.SierpinskiCarpet, 0, [['#']]⟩, "#\n\n".toList) ∧
    printFractals [⟨1, 0⟩] = ⟨"#\n\n".toList, [], none⟩ := by
  decide

/-- C10, amended.  The factory and the builder do not check the depth: for index 1, 2
or 3 and a depth outside 1..6 whose grid side still fits an `int`, `makeFractal`
returns a fractal, `makeAndPrint` returns on it, leaves the square grid of side
`baseSize ^ d` and prints its rows, and `printFractals` on the request returns with
that text; at depth 0 the grid is the single drawn cell.  A depth outside 1..6 is
turned down only by the reader: a line that `readLine` accepts has a dimension from
1 to 6. -/
theorem depth_not_checked_by_core (index : Int) (d : Nat)
    (hk : index = 1 ∨ index = 2 ∨ index = 3) (_hd : d = 0 ∨ 6 < d)
    (_hfit : (if index = 2 then 2 else 3) ^ d < 2 ^ 31) :
    (∃ fr fr2 text, makeFractal index d = some fr ∧ makeAndPrint fr = some (fr2, text) ∧
      fr2.f.length = (if index = 2 then 2 else 3) ^ d ∧
      (∀ row ∈ fr2.f, row.length = (if index = 2 then 2 else 3) ^ d) ∧
      text = (fr2.f.map (fun row => row ++ ['\n'])).flatten ++ ['\n'] ∧
      printFractals [⟨index, d⟩] = ⟨text, [], none⟩ ∧
      (d = 0 → fr2.f = [['#']])) ∧
    ∀ (tok : List Char → List (List Char)) (line : List Char) (r : NeededFractal),
      readLine tok line = some r → 1 ≤ r.dimension ∧ r.dimension ≤ 6 := by
  constructor
  · obtain ⟨k, hik, hN⟩ := index_cases hk
    obtain ⟨g, e, s, hrun⟩ := makeAndPrint_new k d
    have hmk := makeFractal_indexOf k d
    rw [← hik] at hmk
    rw [← hN]
    refine ⟨_, _, _, hmk, hrun, s.1, s.2, rfl, ?_, ?_⟩
    · simp [printFractals, printFractalsLoop, hmk, hrun]
    · intro h0
      subst h0
      have : builtGrid (baseSize k) (stencil k) 0 = some [['#']] := by cases k <;> decide
      rw [this] at e
      exact (Option.some.inj e).symm
  · intro tok line r h
    have := readLine_inRange tok line r h
    exact ⟨this.2.2.1, this.2.2.2⟩

theorem depth_not_checked_by_core_witness :
    (((1 : Int) = 1 ∨ (1 : Int) = 2 ∨ (1 : Int) = 3) ∧ (7 = 0 ∨ 6 < 7) ∧
      (if (1 : Int) = 2 then 2 else 3) ^ 7 < 2 ^ 31) ∧
    ((∃ fr fr2 text, makeFractal 1 7 = some fr ∧ makeAndPrint fr = some (fr2, text) ∧
      fr2.f.length = (if (1 : Int) = 2 then 2 else 3) ^ 7 ∧
      (∀ row ∈ fr2.f, row.length = (if (1 : Int) = 2 then 2 else 3) ^ 7) ∧
      text = (fr2.f.map (fun row => row ++ ['\n'])).flatten ++ ['\n'] ∧
      printFractals [⟨1, 7⟩] = ⟨text, [], none⟩ ∧
      (7 = 0 → fr2.f = [['#']])) ∧
    ∀ (tok : List Char → List (List Char)) (line : List Char) (r : NeededFractal),
      readLine tok line = some r → 1 ≤ r.dimension ∧ r.dimension ≤ 6) :=
  ⟨⟨by decide, by decide, by decide⟩,
    depth_not_checked_by_core 1 7 (by decide) (by decide) (by decide)⟩

theorem writeAll_append (a b : List (Nat × Nat)) (f : Grid) :
    writeAll (a ++ b) f = (writeAll a f).bind (writeAll b) := by
  induction a generalizing f with
  | nil => rfl
  | cons x rest ih =>
    simp only [List.cons_append, writeAll]
    cases writeCell f x.1 x.2 TO_DROW with
    | none => rfl
    | some f1 => exact ih f1

theorem setVectorLoop_eq_writeAll (step : Point → Grid → Option Grid)
    (w : Point → List (Nat × Nat)) (hw : ∀ p g, step p g = writeAll (w p) g)
    (ps : List Point) (f : Grid) :
    setVectorLoop step ps f = writeAll (ps.flatMap w) f := by
  induction ps generalizing f with
  | nil => rfl
  | cons p rest ih =>
    simp only [setVectorLoop, List.flatMap_cons, writeAll_append, hw]
    cases writeAll (w p) f with
    | none => rfl
    | some f1 => exact ih f1

/-- The call `setVector` does the assignments of `setVectorWrites`, in that order, and
nothing else. -/
theorem setVector_eq_writeAll (N : Nat) (S : List Point) :
    ∀ (d r c : Nat) (f : Grid),
      setVector r c N d S f = writeAll (setVectorWrites r c N d S) f := by
  intro d
  induction d with
  | zero =>
    intro r c f
    simp only [setVector, setVectorWrites, writeAll]
    cases writeCell f r c TO_DROW <;> rfl
  | succ d ih =>
    intro r c f
    simp only [setVector, setVectorWrites]
    exact setVectorLoop_eq_writeAll
      (fun point g => setVector (r + N ^ d * point.row) (c + N ^ d * point.col) N d S g)
      (fun point => setVectorWrites (r + N ^ d * point.row) (c + N ^ d * point.col) N d S)
      (fun p g => ih _ _ g) S f

/-- Every cell `setVector` writes lies in the tile of side `N ^ d` at `(r, c)`. -/
theorem setVectorWrites_mem_tile (N : Nat) (S : List Point)
    (hS : ∀ p ∈ S, p.row < N ∧ p.col < N) :
    ∀ (d r c : Nat) (x : Nat × Nat), x ∈ setVectorWrites r c N d S →
      (r ≤ x.1 ∧ x.1 < r + N ^ d) ∧ (c ≤ x.2 ∧ x.2 < c + N ^ d) := by
  intro d
  induction d with
  | zero =>
    intro r c x hx
    simp only [setVectorWrites, List.mem_singleton] at hx
    subst hx
    simp
  | succ d ih =>
    intro r c x hx
    simp only [setVectorWrites, List.mem_flatMap] at hx
    obtain ⟨p, hp, hx⟩ := hx
    obtain ⟨⟨h1, h2⟩, h3, h4⟩ := ih _ _ x hx
    have br := block_le_pow d (hS p hp).1
    have bc := block_le_pow d (hS p hp).2
    refine ⟨⟨by omega, by omega⟩, by omega, by omega⟩

theorem length_flatMap_const {α β : Type} (l : List α) (f : α → List β) (n : Nat)
    (h : ∀ a ∈ l, (f a).length = n) : (l.flatMap f).length = l.length * n := by
  induction l with
  | nil => simp
  | cons a rest ih =>
    rw [List.flatMap_cons, List.length_append, h a (List.mem_cons_self _ _),
      ih (fun b hb => h b (List.mem_cons_of_mem _ hb)), List.length_cons, Nat.succ_mul]
    omega

/-- The number of assignments of `setVector`: one for each choice of a point per
level. -/
theorem setVectorWrites_length (N : Nat) (S : List Point) :
    ∀ (d r c : Nat), (setVectorWrites r c N d S).length = S.length ^ d := by
  intro d
  induction d with
  | zero => intro r c; simp [setVectorWrites]
  | succ d ih =>
    intro r c
    simp only [setVectorWrites]
    rw [length_flatMap_const _ _ (S.length ^ d) (fun p _ => ih _ _), pow_succ, Nat.mul_comm]

theorem tiles_disjoint {M : Nat} {r c : Nat} {p q : Point} {x : Nat × Nat}
    (hp : (r + M * p.row ≤ x.1 ∧ x.1 < r + M * p.row + M) ∧
      (c + M * p.col ≤ x.2 ∧ x.2 < c + M * p.col + M))
    (hq : (r + M * q.row ≤ x.1 ∧ x.1 < r + M * q.row + M) ∧
      (c + M * q.col ≤ x.2 ∧ x.2 < c + M * q.col + M)) : p = q := by
  obtain ⟨⟨a1, a2⟩, a3, a4⟩ := hp
  obtain ⟨⟨b1, b2⟩, b3, b4⟩ := hq
  have hM : 0 < M := by omega
  have e1 : (x.1 - r) / M = p.row := (div_eq_iff_block hM _ _).2 ⟨by omega, by omega⟩
  have e2 : (x.1 - r) / M = q.row := (div_eq_iff_block hM _ _).2 ⟨by omega, by omega⟩
  have e3 : (x.2 - c) / M = p.col := (div_eq_iff_block hM _ _).2 ⟨by omega, by omega⟩
  have e4 : (x.2 - c) / M = q.col := (div_eq_iff_block hM _ _).2 ⟨by omega, by omega⟩
  cases p; cases q
  simp only [Point.mk.injEq]
  simp only at e1 e2 e3 e4
  omega

/-- No cell is written twice: the cells `setVector` assigns to are pairwise
different when the points are inside the base tile and pairwise different. -/
theorem setVectorWrites_nodup (N : Nat) (S : List Point)
    (hS : ∀ p ∈ S, p.row < N ∧ p.col < N) (hnd : S.Nodup) :
    ∀ (d r c : Nat), (setVectorWrites r c N d S).Nodup := by
  intro d
  induction d with
  | zero => intro r c; simp [setVectorWrites]
  | succ d ih =>
    intro r c
    simp only [setVectorWrites]
    rw [List.nodup_flatMap]
    refine ⟨fun p _ => ih _ _, ?_⟩
    refine List.Pairwise.imp ?_ hnd
    intro p q hpq
    simp only [Function.onFun]
    rw [List.disjoint_left]
    intro x hx1 hx2
    exact hpq (tiles_disjoint (setVectorWrites_mem_tile N S hS d _ _ x hx1)
      (setVectorWrites_mem_tile N S hS d _ _ x hx2))

theorem mem_choices (S : List Point) :
    ∀ (d : Nat) (cs : List Point), cs ∈ choices S d ↔ cs.length = d ∧ ∀ p ∈ cs, p ∈ S := by
  intro d
  induction d with
  | zero =>
    intro cs
    simp only [choices, List.mem_singleton]
    constructor
    · intro h; subst h; simp
    · intro h; exact List.length_eq_zero.1 h.1
  | succ d ih =>
    intro cs
    simp only [choices, List.mem_flatMap, List.mem_map]
    constructor
    · rintro ⟨p, hp, rest, hrest, rfl⟩
      obtain ⟨h1, h2⟩ := (ih rest).1 hrest
      refine ⟨by simp [h1], ?_⟩
      intro q hq
      rcases List.mem_cons.1 hq with h | h
      · rw [h]; exact hp
      · exact h2 q h
    · rintro ⟨h1, h2⟩
      cases cs with
      | nil => simp at h1
      | cons p rest =>
        refine ⟨p, h2 p (List.mem_cons_self _ _), rest, ?_, rfl⟩
        exact (ih rest).2 ⟨by simpa using h1, fun q hq => h2 q (List.mem_cons_of_mem _ hq)⟩

/-- The cells written are the cells reached by the choices of one point per level, in
the same order. -/
theorem setVectorWrites_eq_map_reach (N : Nat) (S : List Point) :
    ∀ (d r c : Nat), setVectorWrites r c N d S = (choices S d).map (reach r c N) := by
  intro d
  induction d with
  | zero => intro r c; rfl
  | succ d ih =>
    intro r c
    simp only [setVectorWrites, choices, List.map_flatMap, List.map_map]
    congr 1
    funext p
    rw [ih]
    apply List.map_congr_left
    intro cs hcs
    have hlen : cs.length = d := ((mem_choices S d cs).1 hcs).1
    simp only [Function.comp, reach, hlen]

/-- Two different choices of one point per level end at two different cells. -/
theorem reach_injective (N : Nat) (S : List Point) (hS : ∀ p ∈ S, p.row < N ∧ p.col < N) :
    ∀ (d r c : Nat) (cs1 cs2 : List Point), cs1 ∈ choices S d → cs2 ∈ choices S d →
      reach r c N cs1 = reach r c N cs2 → cs1 = cs2 := by
  intro d
  induction d with
  | zero =>
    intro r c cs1 cs2 h1 h2 _
    simp only [choices, List.mem_singleton] at h1 h2
    rw [h1, h2]
  | succ d ih =>
    intro r c cs1 cs2 h1 h2 he
    simp only [choices, List.mem_flatMap, List.mem_map] at h1 h2
    obtain ⟨p, hp, r1, hr1, rfl⟩ := h1
    obtain ⟨q, hq, r2, hr2, rfl⟩ := h2
    have l1 : r1.length = d := ((mem_choices S d r1).1 hr1).1
    have l2 : r2.length = d := ((mem_choices S d r2).1 hr2).1
    simp only [reach, l1, l2] at he
    have m1 : reach (r + N ^ d * p.row) (c + N ^ d * p.col) N r1
        ∈ setVectorWrites (r + N ^ d * p.row) (c + N ^ d * p.col) N d S := by
      rw [setVectorWrites_eq_map_reach]; exact List.mem_map_of_mem _ hr1
    have m2 : reach (r + N ^ d * q.row) (c + N ^ d * q.col) N r2
        ∈ setVectorWrites (r + N ^ d * q.row) (c + N ^ d * q.col) N d S := by
      rw [setVectorWrites_eq_map_reach]; exact List.mem_map_of_mem _ hr2
    have t1 := setVectorWrites_mem_tile N S hS d _ _ _ m1
    have t2 := setVectorWrites_mem_tile N S hS d _ _ _ m2
    rw [he] at t1
    have hpq : p = q := tiles_disjoint t1 t2
    subst hpq
    rw [ih _ _ r1 r2 hr1 hr2 he]

theorem stencil_nodup (k : Kind) : (stencil k).Nodup := by
  cases k <;> decide

theorem holds_eq_of_rowLengths {g1 g2 : Grid} (h : rowLengths g1 = rowLengths g2) (r c : Nat) :
    holds g1 r c = holds g2 r c := by
  have h1 : (rowLengths g1)[r]? = (rowLengths g2)[r]? := by rw [h]
  simp only [rowLengths, List.getElem?_map] at h1
  unfold holds
  cases e1 : g1[r]? <;> cases e2 : g2[r]? <;> simp_all

/-- Two grids with rows of the same lengths and the same cells are the same grid. -/
theorem grid_ext_rows {g1 g2 : Grid} (hl : rowLengths g1 = rowLengths g2)
    (hc : ∀ i j, cell g1 i j = cell g2 i j) : g1 = g2 := by
  have hlen : g1.length = g2.length := by
    have := congrArg List.length hl
    simpa [rowLengths] using this
  apply List.ext_getElem hlen
  intro i h1 h2
  have hrow : (g1[i]).length = (g2[i]).length := by
    have := congrArg (fun l => l[i]?) hl
    simpa [rowLengths, List.getElem?_map, List.getElem?_eq_getElem h1,
      List.getElem?_eq_getElem h2] using this
  apply List.ext_getElem hrow
  intro j h3 h4
  have := hc i j
  simpa [cell, List.getElem?_eq_getElem h1, List.getElem?_eq_getElem h2,
    List.getElem?_eq_getElem h3, List.getElem?_eq_getElem h4] using this

/-- The assignment `f[r][c] = v` on any grid: it fails exactly when the grid does not
hold the cell; when it returns, the rows keep their lengths, the cell holds `v` and
the other cells are as before. -/
theorem writeCell_general (g : Grid) (r c : Nat) (v : Char) :
    (holds g r c = false → writeCell g r c v = none) ∧
    (holds g r c = true → ∃ g1, writeCell g r c v = some g1 ∧ rowLengths g1 = rowLengths g ∧
      ∀ i j, cell g1 i j = if i = r ∧ j = c then some v else cell g i j) := by
  unfold holds writeCell
  cases hrow : g[r]? with
  | none => simp
  | some row =>
    simp only [decide_eq_false_iff_not, decide_eq_true_eq]
    constructor
    · intro h; simp [h]
    · intro hc
      have hr2 : r < g.length := (List.getElem?_eq_some.1 hrow).1
      refine ⟨g.set r (row.set c v), by simp [hc], ?_, ?_⟩
      · simp only [rowLengths]
        apply List.ext_getElem?
        intro n
        by_cases hn : n = r
        · subst hn
          simp only [List.getElem?_map, List.getElem?_set_self hr2, hrow, Option.map_some',
            List.length_set]
        · have hne : r ≠ n := fun h => hn h.symm
          simp only [List.getElem?_map, List.getElem?_set_ne hne]
      · intro i j
        unfold cell
        by_cases hir : i = r
        · subst hir
          by_cases hjc : j = c
          · subst hjc
            simp [List.getElem?_set_self hr2, List.getElem?_set_self hc]
          · have hne : c ≠ j := fun h => hjc h.symm
            simp [hjc, List.getElem?_set_self hr2, List.getElem?_set_ne hne, hrow]
        · have hne : r ≠ i := fun h => hir h.symm
          simp [hir, List.getElem?_set_ne hne]

/-- The assignments of a list of cells on any grid: they fail exactly when the grid
does not hold one of the cells; when they return, the rows keep their lengths, the
cells of the list hold `TO_DROW` and the other cells are as before. -/
theorem writeAll_general (cells : List (Nat × Nat)) :
    ∀ g : Grid,
      ((∃ x ∈ cells, holds g x.1 x.2 = false) → writeAll cells g = none) ∧
      ((∀ x ∈ cells, holds g x.1 x.2 = true) →
        ∃ g1, writeAll cells g = some g1 ∧ rowLengths g1 = rowLengths g ∧
          ∀ i j, cell g1 i j = if (i, j) ∈ cells then some TO_DROW else cell g i j) := by
  induction cells with
  | nil =>
    intro g
    exact ⟨fun ⟨x, hx, _⟩ => absurd hx (List.not_mem_nil x), fun _ => ⟨g, rfl, rfl, by simp⟩⟩
  | cons x rest ih =>
    intro g
    obtain ⟨wf, ws⟩ := writeCell_general g x.1 x.2 TO_DROW
    constructor
    · rintro ⟨y, hy, hh⟩
      simp only [writeAll]
      cases hx : holds g x.1 x.2 with
      | false => rw [wf hx]
      | true =>
        obtain ⟨g1, e1, l1, _⟩ := ws hx
        rw [e1]
        simp only
        rcases List.mem_cons.1 hy with h | h
        · rw [h, hx] at hh; exact absurd hh (by simp)
        · exact (ih g1).1 ⟨y, h, by rw [holds_eq_of_rowLengths l1]; exact hh⟩
    · intro hall
      obtain ⟨g1, e1, l1, c1⟩ := ws (hall x (List.mem_cons_self _ _))
      obtain ⟨g2, e2, l2, c2⟩ := (ih g1).2 (fun y hy => by
        rw [holds_eq_of_rowLengths l1]; exact hall y (List.mem_cons_of_mem _ hy))
      refine ⟨g2, by simp only [writeAll, e1, e2], l2.trans l1, ?_⟩
      intro i j
      rw [c2, c1]
      by_cases h1 : (i, j) ∈ rest
      · simp [h1]
      · by_cases h2 : (i, j) = x
        · subst h2; simp
        · have h3 : ¬ (i = x.1 ∧ j = x.2) := fun h => h2 (Prod.ext h.1 h.2)
          simp [h1, h2, h3]

/-- The result of the assignments depends on the set of the cells only, not on their
order or on how often a cell occurs. -/
theorem writeAll_congr (cells1 cells2 : List (Nat × Nat))
    (h : ∀ x, x ∈ cells1 ↔ x ∈ cells2) (g : Grid) : writeAll cells1 g = writeAll cells2 g := by
  by_cases hall : ∀ x ∈ cells1, holds g x.1 x.2 = true
  · have hall2 : ∀ x ∈ cells2, holds g x.1 x.2 = true := fun x hx => hall x ((h x).2 hx)
    obtain ⟨g1, e1, l1, c1⟩ := (writeAll_general cells1 g).2 hall
    obtain ⟨g2, e2, l2, c2⟩ := (writeAll_general cells2 g).2 hall2
    rw [e1, e2]
    congr 1
    apply grid_ext_rows (l1.trans l2.symm)
    intro i j
    rw [c1, c2]
    by_cases hm : (i, j) ∈ cells1
    · simp [hm, (h _).1 hm]
    · have hm2 : (i, j) ∉ cells2 := fun hh => hm ((h _).2 hh)
      simp [hm, hm2]
  · have hex : ∃ x ∈ cells1, holds g x.1 x.2 = false := by
      by_contra hne
      apply hall
      intro x hx
      cases hh : holds g x.1 x.2 with
      | true => rfl
      | false => exact absurd ⟨x, hx, hh⟩ hne
    obtain ⟨x, hx, hh⟩ := hex
    rw [(writeAll_general cells1 g).1 ⟨x, hx, hh⟩,
      (writeAll_general cells2 g).1 ⟨x, (h x).1 hx, hh⟩]

theorem setVectorWrites_mem_congr (N : Nat) (S1 S2 : List Point) (h : ∀ p, p ∈ S1 ↔ p ∈ S2) :
    ∀ (d r c : Nat) (x : Nat × Nat),
      x ∈ setVectorWrites r c N d S1 ↔ x ∈ setVectorWrites r c N d S2 := by
  intro d
  induction d with
  | zero => intro r c x; simp [setVectorWrites]
  | succ d ih =>
    intro r c x
    simp only [setVectorWrites, List.mem_flatMap]
    constructor
    · rintro ⟨p, hp, hx⟩
      exact ⟨p, (h p).1 hp, (ih _ _ x).1 hx⟩
    · rintro ⟨p, hp, hx⟩
      exact ⟨p, (h p).2 hp, (ih _ _ x).2 hx⟩

/-- C15. Order independence: for every base size, depth, origin and starting grid,
`setVector` run with a permutation of the points gives the same result as with the
points in the original order. -/
theorem setVector_order_independent (N d r c : Nat) (g : Grid) (S1 S2 : List Point)
    (hperm : S1.Perm S2) : setVector r c N d S1 g = setVector r c N d S2 g := by
  rw [setVector_eq_writeAll, setVector_eq_writeAll]
  exact writeAll_congr _ _ (setVectorWrites_mem_congr N S1 S2 (fun p => hperm.mem_iff) d r c) g

theorem setVector_order_independent_witness :
    (trianglePoints.reverse).Perm trianglePoints ∧
    setVector 0 0 2 2 trianglePoints.reverse (blankGrid 4)
      = setVector 0 0 2 2 trianglePoints (blankGrid 4) ∧
    setVector 0 0 2 2 trianglePoints.reverse (blankGrid 4)
      = some ["####".toList, "# # ".toList, "##  ".toList, "#   ".toList] :=
  ⟨List.reverse_perm _,
    setVector_order_independent 2 2 0 0 (blankGrid 4) trianglePoints.reverse trianglePoints
      (List.reverse_perm _),
    by decide⟩

/-- When the assignments of a list of cells return, the grid held every cell of the
list, the rows keep their lengths, and exactly the cells of the list were set. -/
theorem writeAll_some {cells : List (Nat × Nat)} {g0 g : Grid}
    (h : writeAll cells g0 = some g) :
    (∀ x ∈ cells, holds g0 x.1 x.2 = true) ∧ rowLengths g = rowLengths g0 ∧
      ∀ i j, cell g i j = if (i, j) ∈ cells then some TO_DROW else cell g0 i j := by
  have hall : ∀ x ∈ cells, holds g0 x.1 x.2 = true := by
    intro x hx
    cases hh : holds g0 x.1 x.2 with
    | true => rfl
    | false =>
      rw [(writeAll_general cells g0).1 ⟨x, hx, hh⟩] at h
      exact absurd h (by simp)
  obtain ⟨g1, e1, l1, c1⟩ := (writeAll_general cells g0).2 hall
  have hg : g1 = g := Option.some.inj (e1.symm.trans h)
  subst hg
  exact ⟨hall, l1, c1⟩

theorem blankGrid_cell_ne (s i j : Nat) : cell (blankGrid s) i j ≠ some '#' := by
  by_cases hi : i < s
  · by_cases hj : j < s
    · rw [blankGrid_cell s hi hj]; simp [NOT_DROW]
    · rw [cell_eq_none_of_col (blankGrid_shape s) i (by omega)]; simp
  · rw [cell_eq_none_of_row (blankGrid_shape s) j (by omega)]; simp

/-- The drawn cells of the built grid are exactly the cells `setVector` wrote. -/
theorem builtGrid_drawn_iff_written {N : Nat} {S : List Point} {d : Nat} {g : Grid}
    (e : builtGrid N S d = some g) (i j : Nat) :
    cell g i j = some '#' ↔ (i, j) ∈ setVectorWrites 0 0 N d S := by
  unfold builtGrid at e
  rw [setVector_eq_writeAll, resetVector_eq] at e
  obtain ⟨_, _, hc⟩ := writeAll_some e
  rw [hc]
  by_cases hm : (i, j) ∈ setVectorWrites 0 0 N d S
  · simp [hm, TO_DROW]
  · simp only [hm, if_false, iff_false]
    exact blankGrid_cell_ne _ i j

/-- The number of drawn cells of the built grid is the number of cell writes. -/
theorem builtGrid_countDrawn_eq_writes (k : Kind) (d : Nat) {g : Grid}
    (e : builtGrid (baseSize k) (stencil k) d = some g) :
    countDrawn g = (setVectorWrites 0 0 (baseSize k) d (stencil k)).length := by
  obtain ⟨g1, e1, c1⟩ :=
    builtGrid_countDrawn (baseSize k) (stencil k) (baseSize_pos k) (stencil_lt k) d
  have hg : g1 = g := Option.some.inj (e1.symm.trans e)
  subst hg
  rw [c1, stencilBlocks_eq_length, setVectorWrites_length]

theorem reach_mem_writes (N : Nat) (S : List Point) (d : Nat) (cs : List Point)
    (hl : cs.length = d) (hm : ∀ p ∈ cs, p ∈ S) :
    reach 0 0 N cs ∈ setVectorWrites 0 0 N d S := by
  rw [setVectorWrites_eq_map_reach]
  exact List.mem_map_of_mem _ ((mem_choices S d cs).2 ⟨hl, hm⟩)

/-- At depth 20 the Vicsek build does not return: its side is above `INT_MAX`, and the
recursion with exact powers comes to a cell whose column `2 * 3 ^ 19` is no `int`. -/
theorem writes_leave_int_range :
    builtGridInt VICSEK_SIZE vicsekPoints 20 = none ∧
    INT_MAX < VICSEK_SIZE ^ 20 ∧
    ∃ x ∈ setVectorWrites 0 0 VICSEK_SIZE 20 vicsekPoints, INT_MAX < x.2 := by
  refine ⟨by decide, by decide, reach 0 0 VICSEK_SIZE (⟨0, 2⟩ :: List.replicate 19 ⟨0, 0⟩),
    reach_mem_writes _ _ 20 _ (by simp) ?_, by decide⟩
  intro p hp
  rcases List.mem_cons.1 hp with h | h
  · rw [h]; decide
  · rw [(List.mem_replicate.1 h).2]; decide

/-- C13, amended.  In-bounds writes: for each of the three fractals with base size `N`
and every depth `d ≥ 1` whose grid side `N ^ d` fits an `int`,
`setVector(0, 0, N, d, points)` does exactly the assignments listed by
`setVectorWrites`, every cell `(r, c)` it writes has `r < N ^ d` and `c < N ^ d`, so both
are `int` values, the grid allocated by `resetVector(N ^ d)` holds each of these cells,
and the build returns the grid whose drawn cells are the cells written: no assignment
is out of range. -/
theorem writes_in_bounds (k : Kind) (d : Nat) (_hd : 1 ≤ d)
    (hfit : baseSize k ^ d ≤ INT_MAX) :
    (∀ f, setVector 0 0 (baseSize k) d (stencil k) f
      = writeAll (setVectorWrites 0 0 (baseSize k) d (stencil k)) f) ∧
    (∀ x ∈ setVectorWrites 0 0 (baseSize k) d (stencil k),
      x.1 < baseSize k ^ d ∧ x.2 < baseSize k ^ d) ∧
    (∀ x ∈ setVectorWrites 0 0 (baseSize k) d (stencil k),
      x.1 ≤ INT_MAX ∧ x.2 ≤ INT_MAX) ∧
    (∀ x ∈ setVectorWrites 0 0 (baseSize k) d (stencil k),
      holds (resetVector [] (baseSize k ^ d)) x.1 x.2 = true) ∧
    ∃ g, builtGridInt (baseSize k) (stencil k) d = some g ∧
      ∀ i j, cell g i j = some '#' ↔
        (i, j) ∈ setVectorWrites 0 0 (baseSize k) d (stencil k) := by
  have hb : ∀ x ∈ setVectorWrites 0 0 (baseSize k) d (stencil k),
      x.1 < baseSize k ^ d ∧ x.2 < baseSize k ^ d := by
    intro x hx
    have := setVectorWrites_mem_tile (baseSize k) (stencil k) (stencil_lt k) d 0 0 x hx
    omega
  refine ⟨fun f => setVector_eq_writeAll _ _ d 0 0 f, hb, ?_, ?_, ?_⟩
  · intro x hx
    obtain ⟨h1, h2⟩ := hb x hx
    omega
  · intro x hx
    obtain ⟨h1, h2⟩ := hb x hx
    rw [resetVector_eq]
    simp [holds, blankGrid, h1, h2]
  · obtain ⟨g, e, _⟩ :=
      builtGrid_spec (baseSize k) (stencil k) (baseSize_pos k) (stencil_lt k) d
    exact ⟨g, by rw [builtGridInt_kind_eq _ hfit]; exact e, builtGrid_drawn_iff_written e⟩

/-- The writes of the Vicsek build of depth 2, and the three writes of the triangle of
depth 1. -/
theorem writes_in_bounds_witness :
    (1 ≤ 2 ∧ baseSize Kind.VicsekFractal ^ 2 ≤ INT_MAX) ∧
    ((∀ f, setVector 0 0 (baseSize Kind.VicsekFractal) 2 (stencil Kind.VicsekFractal) f
      = writeAll (setVectorWrites 0 0 (baseSize Kind.VicsekFractal) 2
          (stencil Kind.VicsekFractal)) f) ∧
    (∀ x ∈ setVectorWrites 0 0 (baseSize Kind.VicsekFractal) 2 (stencil Kind.VicsekFractal),
      x.1 < baseSize Kind.VicsekFractal ^ 2 ∧ x.2 < baseSize Kind.VicsekFractal ^ 2) ∧
    (∀ x ∈ setVectorWrites 0 0 (baseSize Kind.VicsekFractal) 2 (stencil Kind.VicsekFractal),
      x.1 ≤ INT_MAX ∧ x.2 ≤ INT_MAX) ∧
    (∀ x ∈ setVectorWrites 0 0 (baseSize Kind.VicsekFractal) 2 (stencil Kind.VicsekFractal),
      holds (resetVector [] (baseSize Kind.VicsekFractal ^ 2)) x.1 x.2 = true) ∧
    ∃ g, builtGridInt (baseSize Kind.VicsekFractal) (stencil Kind.VicsekFractal) 2 = some g ∧
      ∀ i j, cell g i j = some '#' ↔
        (i, j) ∈ setVectorWrites 0 0 (baseSize Kind.VicsekFractal) 2
          (stencil Kind.VicsekFractal)) ∧
    setVectorWrites 0 0 2 1 trianglePoints = [(0, 0), (0, 1), (1, 0)] :=
  ⟨⟨by decide, by decide⟩, writes_in_bounds Kind.VicsekFractal 2 (by decide) (by decide),
    by decide⟩

/-- C14. Disjoint writes: for each of the three fractals and every depth `d`, during a
build two different choices of one point per level of the recursion of
`setVector(0, 0, N, d, points)` end at two different cells of the grid; the cells
written are the cells reached by these choices, each of them is drawn in the built
grid, and no cell is written more than once.  A build takes place exactly when the
side of the grid fits an `int`, and then every cell reached has `int` coordinates. -/
theorem writes_disjoint (k : Kind) (d : Nat) :
    (baseSize k ^ d ≤ INT_MAX → ∃ g, builtGridInt (baseSize k) (stencil k) d = some g) ∧
    (INT_MAX < baseSize k ^ d → builtGridInt (baseSize k) (stencil k) d = none) ∧
    ∀ g, builtGridInt (baseSize k) (stencil k) d = some g →
      (∀ cs : List Point, cs.length = d → (∀ p ∈ cs, p ∈ stencil k) →
        (reach 0 0 (baseSize k) cs).1 < baseSize k ^ d ∧
        (reach 0 0 (baseSize k) cs).2 < baseSize k ^ d ∧
        baseSize k ^ d ≤ INT_MAX ∧
        cell g (reach 0 0 (baseSize k) cs).1 (reach 0 0 (baseSize k) cs).2 = some '#') ∧
      (∀ cs1 cs2 : List Point, cs1.length = d → cs2.length = d →
        (∀ p ∈ cs1, p ∈ stencil k) → (∀ p ∈ cs2, p ∈ stencil k) → cs1 ≠ cs2 →
          reach 0 0 (baseSize k) cs1 ≠ reach 0 0 (baseSize k) cs2) ∧
      setVectorWrites 0 0 (baseSize k) d (stencil k)
        = (choices (stencil k) d).map (reach 0 0 (baseSize k)) ∧
      (setVectorWrites 0 0 (baseSize k) d (stencil k)).Nodup ∧
      countDrawn g = (setVectorWrites 0 0 (baseSize k) d (stencil k)).length := by
  obtain ⟨g1, e, _, _⟩ :=
    builtGrid_spec (baseSize k) (stencil k) (baseSize_pos k) (stencil_lt k) d
  refine ⟨fun hfit => ⟨g1, by rw [builtGridInt_kind_eq _ hfit]; exact e⟩,
    fun hbig => builtGridInt_none _ hbig, ?_⟩
  intro g hg
  obtain ⟨hfit, hg1⟩ := builtGridInt_kind_some _ hg
  refine ⟨?_, ?_, setVectorWrites_eq_map_reach _ _ d 0 0,
    setVectorWrites_nodup _ _ (stencil_lt k) (stencil_nodup k) d 0 0,
    builtGrid_countDrawn_eq_writes k d hg1⟩
  · intro cs hl hm
    have hmem := reach_mem_writes (baseSize k) (stencil k) d cs hl hm
    have ht := setVectorWrites_mem_tile (baseSize k) (stencil k) (stencil_lt k) d 0 0 _ hmem
    refine ⟨by omega, by omega, hfit, ?_⟩
    exact (builtGrid_drawn_iff_written hg1 _ _).2 hmem
  · intro cs1 cs2 l1 l2 m1 m2 hne he
    exact hne (reach_injective (baseSize k) (stencil k) (stencil_lt k) d 0 0 cs1 cs2
      ((mem_choices _ d cs1).2 ⟨l1, m1⟩) ((mem_choices _ d cs2).2 ⟨l2, m2⟩) he)

theorem stencil_length_le (k : Kind) : (stencil k).length ≤ baseSize k ^ 2 := by
  cases k <;> decide

/-- At depth 21 the carpet build does not return: the side `3 ^ 21` and already the
first `diff_idx = 3 ^ 20` of `setVector` are above `INT_MAX`. -/
theorem work_leaves_int_range :
    builtGridInt CARPET_SIZE carpetPoints 21 = none ∧
    powInt CARPET_SIZE (21 - 1) = none ∧
    INT_MAX < CARPET_SIZE ^ (21 - 1) := by
  decide

/-- C16, amended.  Bounded work and termination: for each of the three fractals with
base size `N` and every depth `d` whose grid side `N ^ d` fits an `int`,
`setVector(0, 0, N, d, points)` returns on the allocated grid; the number of its cell
writes is the number of points to the power `d`, which is at most `N ^ (2 * d)`; the
cells written are pairwise different and are exactly the drawn cells of the grid it
returns, so the grid has that many drawn cells.  For the carpet at depth 6 the number
of writes is at most `3 ^ 12 = 531441`. -/
theorem bounded_work (k : Kind) (d : Nat) (hfit : baseSize k ^ d ≤ INT_MAX) :
    (∃ g, builtGridInt (baseSize k) (stencil k) d = some g ∧
      setVector 0 0 (baseSize k) d (stencil k) (resetVector [] (baseSize k ^ d)) = some g ∧
      (∀ i j, cell g i j = some '#' ↔
        (i, j) ∈ setVectorWrites 0 0 (baseSize k) d (stencil k)) ∧
      countDrawn g = (setVectorWrites 0 0 (baseSize k) d (stencil k)).length) ∧
    (∀ f, setVector 0 0 (baseSize k) d (stencil k) f
      = writeAll (setVectorWrites 0 0 (baseSize k) d (stencil k)) f) ∧
    (setVectorWrites 0 0 (baseSize k) d (stencil k)).Nodup ∧
    (setVectorWrites 0 0 (baseSize k) d (stencil k)).length = (stencil k).length ^ d ∧
    (setVectorWrites 0 0 (baseSize k) d (stencil k)).length ≤ baseSize k ^ (2 * d) ∧
    (setVectorWrites 0 0 CARPET_SIZE 6 carpetPoints).length ≤ 3 ^ 12 ∧
    3 ^ 12 = 531441 := by
  have hlen := setVectorWrites_length (baseSize k) (stencil k) d 0 0
  refine ⟨?_, fun f => setVector_eq_writeAll _ _ d 0 0 f,
    setVectorWrites_nodup _ _ (stencil_lt k) (stencil_nodup k) d 0 0, hlen, ?_, ?_,
    by decide⟩
  · obtain ⟨g, e, _⟩ :=
      builtGrid_spec (baseSize k) (stencil k) (baseSize_pos k) (stencil_lt k) d
    exact ⟨g, by rw [builtGridInt_kind_eq _ hfit]; exact e, e, builtGrid_drawn_iff_written e,
      builtGrid_countDrawn_eq_writes k d e⟩
  · rw [hlen, pow_mul]
    exact Nat.pow_le_pow_left (stencil_length_le k) d
  · rw [setVectorWrites_length]
    decide

/-- The work of the carpet build of depth 2: 64 writes, 64 drawn cells. -/
theorem bounded_work_witness :
    baseSize Kind.SierpinskiCarpet ^ 2 ≤ INT_MAX ∧
    ((∃ g, builtGridInt (baseSize Kind.SierpinskiCarpet) (stencil Kind.SierpinskiCarpet) 2
        = some g ∧
      setVector 0 0 (baseSize Kind.SierpinskiCarpet) 2 (stencil Kind.SierpinskiCarpet)
        (resetVector [] (baseSize Kind.SierpinskiCarpet ^ 2)) = some g ∧
      (∀ i j, cell g i j = some '#' ↔
        (i, j) ∈ setVectorWrites 0 0 (baseSize Kind.SierpinskiCarpet) 2
          (stencil Kind.SierpinskiCarpet)) ∧
      countDrawn g
        = (setVectorWrites 0 0 (baseSize Kind.SierpinskiCarpet) 2
            (stencil Kind.SierpinskiCarpet)).length) ∧
    (∀ f, setVector 0 0 (baseSize Kind.SierpinskiCarpet) 2 (stencil Kind.SierpinskiCarpet) f
      = writeAll (setVectorWrites 0 0 (baseSize Kind.SierpinskiCarpet) 2
          (stencil Kind.SierpinskiCarpet)) f) ∧
    (setVectorWrites 0 0 (baseSize Kind.SierpinskiCarpet) 2
      (stencil Kind.SierpinskiCarpet)).Nodup ∧
    (setVectorWrites 0 0 (baseSize Kind.SierpinskiCarpet) 2
      (stencil Kind.SierpinskiCarpet)).length = (stencil Kind.SierpinskiCarpet).length ^ 2 ∧
    (setVectorWrites 0 0 (baseSize Kind.SierpinskiCarpet) 2
      (stencil Kind.SierpinskiCarpet)).length ≤ baseSize Kind.SierpinskiCarpet ^ (2 * 2) ∧
    (setVectorWrites 0 0 CARPET_SIZE 6 carpetPoints).length ≤ 3 ^ 12 ∧
    3 ^ 12 = 531441) ∧
    (setVectorWrites 0 0 CARPET_SIZE 2 carpetPoints).length = 64 ∧
    (builtGridInt CARPET_SIZE carpetPoints 2).map countDrawn = some 64 :=
  ⟨by decide, bounded_work Kind.SierpinskiCarpet 2 (by decide), by decide, by decide⟩

theorem digit_of_mod {N : Nat} {k d : Nat} (hk : k < d) (x : Nat) :
    x % N ^ d / N ^ k % N = x / N ^ k % N := by
  have hd : N ^ d = N ^ k * N ^ (d - k) := by
    rw [← pow_add]; congr 1; omega
  have hdvd : N ∣ N ^ (d - k) := dvd_pow_self N (by omega)
  rw [hd, Nat.mod_mul_right_div_self, Nat.mod_mod_of_dvd _ hdvd]

/-- The closed form of `drawnAt`: an offset inside the tile of depth `d` is drawn
exactly when at every level `k < d` its pair of base-`N` digits is one of the points. -/
theorem drawnAt_iff_digits (N : Nat) (S : List Point) (hN : 0 < N) :
    ∀ (d x y : Nat), x < N ^ d → y < N ^ d →
      (drawnAt N S d x y = true ↔
        ∀ k, k < d → (⟨x / N ^ k % N, y / N ^ k % N⟩ : Point) ∈ S) := by
  intro d
  induction d with
  | zero =>
    intro x y _ _
    simp [drawnAt]
  | succ d ih =>
    intro x y hx hy
    have hM : 0 < N ^ d := pow_pos hN d
    have hxm : x % N ^ d < N ^ d := Nat.mod_lt _ hM
    have hym : y % N ^ d < N ^ d := Nat.mod_lt _ hM
    have hxd : x / N ^ d < N := Nat.div_lt_of_lt_mul (by rw [pow_succ] at hx; exact hx)
    have hyd : y / N ^ d < N := Nat.div_lt_of_lt_mul (by rw [pow_succ] at hy; exact hy)
    simp only [drawnAt, Bool.and_eq_true, decide_eq_true_eq, ih _ _ hxm hym]
    constructor
    · rintro ⟨h1, h2⟩ k hk
      by_cases hkd : k = d
      · subst hkd
        rw [Nat.mod_eq_of_lt hxd, Nat.mod_eq_of_lt hyd]
        exact h1
      · have hlt : k < d := by omega
        have := h2 k hlt
        rw [digit_of_mod hlt, digit_of_mod hlt] at this
        exact this
    · intro h
      constructor
      · have := h d (Nat.lt_succ_self d)
        rw [Nat.mod_eq_of_lt hxd, Nat.mod_eq_of_lt hyd] at this
        exact this
      · intro k hk
        rw [digit_of_mod hk, digit_of_mod hk]
        exact h k (Nat.lt_succ_of_lt hk)

theorem drawnAt_symm (N : Nat) (S : List Point)
    (hsym : ∀ a b, (⟨a, b⟩ : Point) ∈ S ↔ (⟨b, a⟩ : Point) ∈ S) :
    ∀ (d x y : Nat), drawnAt N S d x y = drawnAt N S d y x := by
  intro d
  induction d with
  | zero => intro x y; rfl
  | succ d ih =>
    intro x y
    simp only [drawnAt]
    rw [ih (x % N ^ d) (y % N ^ d)]
    congr 1
    exact decide_eq_decide.2 (hsym _ _)

theorem mem_carpet (a b : Nat) :
    (⟨a, b⟩ : Point) ∈ stencil Kind.SierpinskiCarpet ↔
      a < 3 ∧ b < 3 ∧ ¬ (a = 1 ∧ b = 1) := by
  simp only [stencil, carpetPoints, CARPET_NUM_POINTS, List.take, List.mem_cons,
    Point.mk.injEq, List.mem_nil_iff, or_false]
  omega

theorem mem_triangle (a b : Nat) :
    (⟨a, b⟩ : Point) ∈ stencil Kind.SierpinskiTriangle ↔
      a < 2 ∧ b < 2 ∧ ¬ (a = 1 ∧ b = 1) := by
  simp only [stencil, trianglePoints, TRIANGLE_NUM_POINTS, List.take, List.mem_cons,
    Point.mk.injEq, List.mem_nil_iff, or_false]
  omega

theorem mem_vicsek (a b : Nat) :
    (⟨a, b⟩ : Point) ∈ stencil Kind.VicsekFractal ↔
      (a = 1 ∧ b = 1) ∨ ((a = 0 ∨ a = 2) ∧ (b = 0 ∨ b = 2)) := by
  simp only [stencil, vicsekPoints, VICSEK_NUM_POINTS, List.take, List.mem_cons,
    Point.mk.injEq, List.mem_nil_iff, or_false]
  omega

theorem stencil_symm (k : Kind) (a b : Nat) :
    (⟨a, b⟩ : Point) ∈ stencil k ↔ (⟨b, a⟩ : Point) ∈ stencil k := by
  cases k
  · rw [mem_carpet, mem_carpet]; omega
  · rw [mem_triangle, mem_triangle]; omega
  · rw [mem_vicsek, mem_vicsek]; omega

theorem cell_drawn_iff {N : Nat} {S : List Point} {d : Nat} {g : Grid} {i j : Nat}
    (h : cell g i j = some (if drawnAt N S d i j then TO_DROW else NOT_DROW)) :
    (cell g i j = some '#' ↔ drawnAt N S d i j = true) ∧
    (drawnAt N S d i j = false → cell g i j = some ' ') := by
  rw [h]
  cases drawnAt N S d i j <;> simp [TO_DROW, NOT_DROW]

/-- C18. Closed-form cell characterisation: for each of the three fractals with base
size `N` and points `S`, every depth `d` and every `r, c < N ^ d`, cell `(r, c)` of the
built grid is `'#'` exactly when for every level `l < d` the pair of base-`N` digits
`((r / N ^ l) mod N, (c / N ^ l) mod N)` is one of the points; otherwise it is `' '`.
The grid is built exactly when its side fits an `int`. -/
theorem closed_form_cells (k : Kind) (d r c : Nat) (hr : r < baseSize k ^ d)
    (hc : c < baseSize k ^ d) :
    (baseSize k ^ d ≤ INT_MAX → ∃ g, builtGridInt (baseSize k) (stencil k) d = some g) ∧
    (INT_MAX < baseSize k ^ d → builtGridInt (baseSize k) (stencil k) d = none) ∧
    ∀ g, builtGridInt (baseSize k) (stencil k) d = some g →
      (cell g r c = some '#' ↔
        ∀ l, l < d →
          (⟨r / baseSize k ^ l % baseSize k, c / baseSize k ^ l % baseSize k⟩ : Point)
            ∈ stencil k) ∧
      (¬ (∀ l, l < d →
          (⟨r / baseSize k ^ l % baseSize k, c / baseSize k ^ l % baseSize k⟩ : Point)
            ∈ stencil k) → cell g r c = some ' ') := by
  obtain ⟨g1, e, _, hcell⟩ :=
    builtGrid_spec (baseSize k) (stencil k) (baseSize_pos k) (stencil_lt k) d
  refine ⟨fun hfit => ⟨g1, by rw [builtGridInt_kind_eq _ hfit]; exact e⟩,
    fun hbig => builtGridInt_none _ hbig, ?_⟩
  intro g hg
  have hgg : g1 = g := Option.some.inj (e.symm.trans (builtGridInt_kind_some _ hg).2)
  subst hgg
  obtain ⟨h1, h2⟩ := cell_drawn_iff (hcell r c hr hc)
  have hd := drawnAt_iff_digits (baseSize k) (stencil k) (baseSize_pos k) d r c hr hc
  refine ⟨h1.trans hd, ?_⟩
  intro hn
  apply h2
  cases hh : drawnAt (baseSize k) (stencil k) d r c with
  | false => rfl
  | true => exact absurd (hd.1 hh) hn

/-- The cells `(4, 7)` and `(5, 7)` of the carpet of depth 2. -/
theorem closed_form_cells_witness :
    (4 < baseSize Kind.SierpinskiCarpet ^ 2 ∧ 7 < baseSize Kind.SierpinskiCarpet ^ 2) ∧
    ((baseSize Kind.SierpinskiCarpet ^ 2 ≤ INT_MAX →
        ∃ g, builtGridInt (baseSize Kind.SierpinskiCarpet) (stencil Kind.SierpinskiCarpet) 2
          = some g) ∧
      (INT_MAX < baseSize Kind.SierpinskiCarpet ^ 2 →
        builtGridInt (baseSize Kind.SierpinskiCarpet) (stencil Kind.SierpinskiCarpet) 2
          = none) ∧
      ∀ g, builtGridInt (baseSize Kind.SierpinskiCarpet) (stencil Kind.SierpinskiCarpet) 2
          = some g →
        (cell g 4 7 = some '#' ↔
          ∀ l, l < 2 →
            (⟨4 / baseSize Kind.SierpinskiCarpet ^ l % baseSize Kind.SierpinskiCarpet,
              7 / baseSize Kind.SierpinskiCarpet ^ l % baseSize Kind.SierpinskiCarpet⟩ : Point)
              ∈ stencil Kind.SierpinskiCarpet) ∧
        (¬ (∀ l, l < 2 →
            (⟨4 / baseSize Kind.SierpinskiCarpet ^ l % baseSize Kind.SierpinskiCarpet,
              7 / baseSize Kind.SierpinskiCarpet ^ l % baseSize Kind.SierpinskiCarpet⟩ : Point)
              ∈ stencil Kind.SierpinskiCarpet) → cell g 4 7 = some ' ')) ∧
    (builtGridInt CARPET_SIZE carpetPoints 2).map (fun g => cell g 4 7) = some (some ' ') ∧
    (builtGridInt CARPET_SIZE carpetPoints 2).map (fun g => cell g 5 7) = some (some '#') ∧
    builtGridInt VICSEK_SIZE vicsekPoints 21 = none :=
  ⟨⟨by decide, by decide⟩, closed_form_cells Kind.SierpinskiCarpet 2 4 7 (by decide) (by decide),
    by decide, by decide, by decide⟩

/-- C19. Transpose symmetry: for each of the three fractals, every depth `d` and all
`r, c < baseSize ^ d`, cell `(r, c)` of the built grid equals cell `(c, r)`.  The grid
is built exactly when its side fits an `int`. -/
theorem transpose_symmetry (k : Kind) (d r c : Nat) (hr : r < baseSize k ^ d)
    (hc : c < baseSize k ^ d) :
    (baseSize k ^ d ≤ INT_MAX → ∃ g, builtGridInt (baseSize k) (stencil k) d = some g) ∧
    (INT_MAX < baseSize k ^ d → builtGridInt (baseSize k) (stencil k) d = none) ∧
    ∀ g, builtGridInt (baseSize k) (stencil k) d = some g →
      cell g r c = cell g c r ∧ (cell g r c = some '#' ∨ cell g r c = some ' ') := by
  obtain ⟨g1, e, _, hcell⟩ :=
    builtGrid_spec (baseSize k) (stencil k) (baseSize_pos k) (stencil_lt k) d
  refine ⟨fun hfit => ⟨g1, by rw [builtGridInt_kind_eq _ hfit]; exact e⟩,
    fun hbig => builtGridInt_none _ hbig, ?_⟩
  intro g hg
  have hgg : g1 = g := Option.some.inj (e.symm.trans (builtGridInt_kind_some _ hg).2)
  subst hgg
  constructor
  · rw [hcell r c hr hc, hcell c r hc hr, drawnAt_symm _ _ (stencil_symm k) d r c]
  · rw [hcell r c hr hc]
    cases drawnAt (baseSize k) (stencil k) d r c <;> simp [TO_DROW, NOT_DROW]

/-- The cells `(1, 7)` and `(7, 1)` of the Vicsek grid of depth 2. -/
theorem transpose_symmetry_witness :
    (1 < baseSize Kind.VicsekFractal ^ 2 ∧ 7 < baseSize Kind.VicsekFractal ^ 2) ∧
    ((baseSize Kind.VicsekFractal ^ 2 ≤ INT_MAX →
        ∃ g, builtGridInt (baseSize Kind.VicsekFractal) (stencil Kind.VicsekFractal) 2
          = some g) ∧
      (INT_MAX < baseSize Kind.VicsekFractal ^ 2 →
        builtGridInt (baseSize Kind.VicsekFractal) (stencil Kind.VicsekFractal) 2 = none) ∧
      ∀ g, builtGridInt (baseSize Kind.VicsekFractal) (stencil Kind.VicsekFractal) 2 = some g →
        cell g 1 7 = cell g 7 1 ∧ (cell g 1 7 = some '#' ∨ cell g 1 7 = some ' ')) ∧
    (builtGridInt VICSEK_SIZE vicsekPoints 2).map (fun g => (cell g 1 7, cell g 7 1))
      = some (some '#', some '#') ∧
    (builtGridInt VICSEK_SIZE vicsekPoints 2).map (fun g => (cell g 1 4, cell g 4 1))
      = some (some ' ', some ' ') ∧
    builtGridInt TRIANGLE_SIZE trianglePoints 32 = none :=
  ⟨⟨by decide, by decide⟩, transpose_symmetry Kind.VicsekFractal 2 1 7 (by decide) (by decide),
    by decide, by decide, by decide⟩

theorem and_eq_zero_iff_digits (d x y : Nat) (hx : x < 2 ^ d) :
    x &&& y = 0 ↔ ∀ l, l < d → ¬ (x / 2 ^ l % 2 = 1 ∧ y / 2 ^ l % 2 = 1) := by
  constructor
  · intro h l _ hboth
    have hb : (x &&& y).testBit l = true := by
      rw [Nat.testBit_and, Nat.testBit_to_div_mod, Nat.testBit_to_div_mod]
      simp [hboth.1, hboth.2]
    rw [h, Nat.zero_testBit] at hb
    exact absurd hb (by simp)
  · intro h
    apply Nat.eq_of_testBit_eq
    intro i
    rw [Nat.testBit_and, Nat.zero_testBit]
    by_cases hi : i < d
    · have := h i hi
      rw [Nat.testBit_to_div_mod, Nat.testBit_to_div_mod]
      by_cases h1 : x / 2 ^ i % 2 = 1
      · have h2 : ¬ y / 2 ^ i % 2 = 1 := fun h2 => this ⟨h1, h2⟩
        simp [h2]
      · simp [h1]
    · have hle : 2 ^ d ≤ 2 ^ i := Nat.pow_le_pow_right (by decide) (by omega)
      rw [Nat.testBit_lt_two_pow (Nat.lt_of_lt_of_le hx hle)]
      rfl

/-- C20. Triangle as a bitwise test: for the Sierpinski triangle at every depth `d` and
all `r, c < 2 ^ d`, cell `(r, c)` of the built grid, which is the grid `makeAndPrint`
leaves in the fractal that `makeFractal(2, d)` returns, is `'#'` exactly when the
bitwise AND of `r` and `c` is 0, and `' '` otherwise.  The grid is built exactly when
its side `2 ^ d` fits an `int`. -/
theorem triangle_bitwise (d r c : Nat) (hr : r < 2 ^ d) (hc : c < 2 ^ d) :
    (2 ^ d ≤ INT_MAX → ∃ fr2 text, makeAndPrintInt 2 d = some (fr2, text)) ∧
    (INT_MAX < 2 ^ d → makeAndPrintInt 2 d = none) ∧
    ∀ fr2 text, makeAndPrintInt 2 d = some (fr2, text) →
      builtGridInt TRIANGLE_SIZE (trianglePoints.take TRIANGLE_NUM_POINTS) d = some fr2.f ∧
      (∃ fr, makeFractal 2 d = some fr ∧ makeAndPrint fr = some (fr2, text)) ∧
      (cell fr2.f r c = some '#' ↔ r &&& c = 0) ∧
      (r &&& c ≠ 0 → cell fr2.f r c = some ' ') := by
  have hidx : (2 : Int) = indexOf Kind.SierpinskiTriangle := rfl
  have hsz : baseSize Kind.SierpinskiTriangle = 2 := rfl
  refine ⟨?_, ?_, ?_⟩
  · intro hfit
    obtain ⟨g, _, _, hrun⟩ := makeAndPrint_new Kind.SierpinskiTriangle d
    exact ⟨_, _, by rw [hidx, makeAndPrintInt_eq _ (by rw [hsz]; exact hfit)]; exact hrun⟩
  · intro hbig
    rw [hidx]
    exact makeAndPrintInt_none _ (by rw [hsz]; exact hbig)
  · intro fr2 text h
    rw [hidx] at h
    obtain ⟨hfit, hrun⟩ := makeAndPrintInt_some _ h
    obtain ⟨g, e, _, hres⟩ := makeAndPrintInt_result _ h
    have hfr : fr2 = ⟨Kind.SierpinskiTriangle, d, g⟩ := congrArg Prod.fst hres
    subst hfr
    obtain ⟨g1, e1, _, hcell⟩ :=
      builtGrid_spec (baseSize Kind.SierpinskiTriangle) (stencil Kind.SierpinskiTriangle)
        (baseSize_pos _) (stencil_lt _) d
    have hg : g1 = g := Option.some.inj (e1.symm.trans e)
    subst hg
    obtain ⟨h1, h2⟩ := cell_drawn_iff (hcell r c hr hc)
    have hd := drawnAt_iff_digits (baseSize Kind.SierpinskiTriangle)
      (stencil Kind.SierpinskiTriangle) (baseSize_pos _) d r c hr hc
    have hbit : (∀ l, l < d →
        (⟨r / 2 ^ l % 2, c / 2 ^ l % 2⟩ : Point) ∈ stencil Kind.SierpinskiTriangle)
          ↔ r &&& c = 0 := by
      rw [and_eq_zero_iff_digits d r c hr]
      apply forall_congr'
      intro l
      apply imp_congr_right
      intro _
      rw [mem_triangle]
      have := Nat.mod_lt (r / 2 ^ l) (show 0 < 2 by decide)
      have := Nat.mod_lt (c / 2 ^ l) (show 0 < 2 by decide)
      omega
    have hiff : cell g1 r c = some '#' ↔ r &&& c = 0 := h1.trans (hd.trans hbit)
    refine ⟨?_, ⟨_, makeFractal_indexOf Kind.SierpinskiTriangle d, hrun⟩, hiff, ?_⟩
    · have : builtGridInt (baseSize Kind.SierpinskiTriangle)
          (stencil Kind.SierpinskiTriangle) d = some g1 := by
        rw [builtGridInt_kind_eq _ hfit]; exact e
      exact this
    · intro hne
      apply h2
      cases hh : drawnAt (baseSize Kind.SierpinskiTriangle)
          (stencil Kind.SierpinskiTriangle) d r c with
      | false => rfl
      | true => exact absurd (hbit.1 (hd.1 hh)) hne

/-- The cell `(5, 2)` of the triangle of depth 3, and two cells of depth 2. -/
theorem triangle_bitwise_witness :
    (5 < 2 ^ 3 ∧ 2 < 2 ^ 3) ∧
    ((2 ^ 3 ≤ INT_MAX → ∃ fr2 text, makeAndPrintInt 2 3 = some (fr2, text)) ∧
      (INT_MAX < 2 ^ 3 → makeAndPrintInt 2 3 = none) ∧
      ∀ fr2 text, makeAndPrintInt 2 3 = some (fr2, text) →
        builtGridInt TRIANGLE_SIZE (trianglePoints.take TRIANGLE_NUM_POINTS) 3 = some fr2.f ∧
        (∃ fr, makeFractal 2 3 = some fr ∧ makeAndPrint fr = some (fr2, text)) ∧
        (cell fr2.f 5 2 = some '#' ↔ 5 &&& 2 = 0) ∧
        (5 &&& 2 ≠ 0 → cell fr2.f 5 2 = some ' ')) ∧
    (makeAndPrintInt 2 2).map (fun r => (cell r.1.f 2 1, cell r.1.f 3 1))
      = some (some '#', some ' ') ∧
    makeAndPrintInt 2 30 ≠ none ∧
    makeAndPrintInt 2 31 = none :=
  ⟨⟨by decide, by decide⟩, triangle_bitwise 3 5 2 (by decide) (by decide), by decide,
    by
      obtain ⟨fr2, text, h⟩ := (triangle_bitwise 30 0 0 (by decide) (by decide)).1 (by decide)
      rw [h]; simp,
    by decide⟩

/-- Running `setVector` again on the built grid gives the built grid. -/
theorem setVector_builtGrid (N : Nat) (S : List Point) (hN : 0 < N)
    (hS : ∀ p ∈ S, p.row < N ∧ p.col < N) (d : Nat) (g : Grid)
    (e : builtGrid N S d = some g) : setVector 0 0 N d S g = some g := by
  obtain ⟨g0, e0, s0, c0⟩ := builtGrid_spec N S hN hS d
  have hg : g0 = g := Option.some.inj (e0.symm.trans e)
  subst hg
  obtain ⟨g1, e1, s1, c1⟩ :=
    setVector_spec N S hN hS (N ^ d) (N ^ d) d 0 0 g0 s0 (by omega) (by omega)
  rw [e1]
  congr 1
  apply grid_ext s1 s0
  intro i j hi hj
  rw [c1, inTile_origin N S d hi hj, c0 i j hi hj]
  cases drawnAt N S d i j <;> simp

/-- C11. Determinism and idempotence of the build: for each of the three fractals and
every depth `d ≥ 1`, the grid that `makeAndPrint` leaves in the fractal made by
`makeFractal` is the built grid of the base size, points and depth, whatever the vector
held before `resetVector`; a second call of `makeAndPrint` on the same fractal
returns, leaves the grid as it is and prints the same text.  The first call returns
exactly when the side of the grid fits an `int`. -/
theorem build_deterministic_idempotent (k : Kind) (d : Nat) (_hd : 1 ≤ d) :
    (baseSize k ^ d ≤ INT_MAX →
      ∃ fr2 text, makeAndPrintInt (indexOf k) d = some (fr2, text)) ∧
    (INT_MAX < baseSize k ^ d → makeAndPrintInt (indexOf k) d = none) ∧
    ∀ fr2 text, makeAndPrintInt (indexOf k) d = some (fr2, text) →
      (∃ fr, makeFractal (indexOf k) d = some fr ∧ makeAndPrint fr = some (fr2, text)) ∧
      makeAndPrint fr2 = some (fr2, text) ∧
      builtGridInt (baseSize k) (stencil k) d = some fr2.f ∧
      (∀ f0 : Grid,
        setVector 0 0 (baseSize k) d (stencil k) (resetVector f0 (baseSize k ^ d))
          = some fr2.f) ∧
      setVector 0 0 (baseSize k) d (stencil k) fr2.f = some fr2.f := by
  refine ⟨?_, fun hbig => makeAndPrintInt_none k hbig, ?_⟩
  · intro hfit
    obtain ⟨g, _, _, hrun⟩ := makeAndPrint_new k d
    exact ⟨_, _, by rw [makeAndPrintInt_eq k hfit]; exact hrun⟩
  · intro fr2 text h
    obtain ⟨hfit, hrun⟩ := makeAndPrintInt_some k h
    obtain ⟨g, e, s, hres⟩ := makeAndPrintInt_result k h
    have hfr : fr2 = ⟨k, d, g⟩ := congrArg Prod.fst hres
    have htext : text = render g := congrArg Prod.snd hres
    subst hfr
    subst htext
    have hidem :=
      setVector_builtGrid (baseSize k) (stencil k) (baseSize_pos k) (stencil_lt k) d g e
    refine ⟨⟨_, makeFractal_indexOf k d, hrun⟩, ?_, by rw [builtGridInt_kind_eq _ hfit]; exact e,
      ?_, hidem⟩
    · rw [makeAndPrint_eq]
      unfold makeAndPrintWith
      simp only [hidem, toPrint_eq s]
    · intro f0
      rw [resetVector_eq, ← resetVector_eq []]
      exact e

/-- The triangle of depth 2: the request runs, and a second `makeAndPrint` gives the
same fractal and text. -/
theorem build_deterministic_idempotent_witness :
    1 ≤ 2 ∧
    ((baseSize Kind.SierpinskiTriangle ^ 2 ≤ INT_MAX →
        ∃ fr2 text, makeAndPrintInt (indexOf Kind.SierpinskiTriangle) 2 = some (fr2, text)) ∧
      (INT_MAX < baseSize Kind.SierpinskiTriangle ^ 2 →
        makeAndPrintInt (indexOf Kind.SierpinskiTriangle) 2 = none) ∧
      ∀ fr2 text, makeAndPrintInt (indexOf Kind.SierpinskiTriangle) 2 = some (fr2, text) →
        (∃ fr, makeFractal (indexOf Kind.SierpinskiTriangle) 2 = some fr ∧
          makeAndPrint fr = some (fr2, text)) ∧
        makeAndPrint fr2 = some (fr2, text) ∧
        builtGridInt (baseSize Kind.SierpinskiTriangle) (stencil Kind.SierpinskiTriangle) 2
          = some fr2.f ∧
        (∀ f0 : Grid,
          setVector 0 0 (baseSize Kind.SierpinskiTriangle) 2 (stencil Kind.SierpinskiTriangle)
            (resetVector f0 (baseSize Kind.SierpinskiTriangle ^ 2)) = some fr2.f) ∧
        setVector 0 0 (baseSize Kind.SierpinskiTriangle) 2 (stencil Kind.SierpinskiTriangle)
          fr2.f = some fr2.f) ∧
    makeAndPrintInt 2 2
      = some (⟨Kind.SierpinskiTriangle, 2,
          ["####".toList, "# # ".toList, "##  ".toList, "#   ".toList]⟩,
        "####\n# # \n##  \n#   \n\n".toList) ∧
    (makeAndPrintInt 2 2).bind (fun r => makeAndPrint r.1) = makeAndPrintInt 2 2 ∧
    makeAndPrintInt 2 31 = none :=
  ⟨by decide, build_deterministic_idempotent Kind.SierpinskiTriangle 2 (by decide),
    by decide, by decide, by decide⟩

theorem readToken_eq (st : LineState) (t : List Char) :
    readToken st t =
      if st.numTokens = 0 then
        (if digitIn t 1 3 then some ⟨(stoi t : Int), st.dim, 1⟩ else none)
      else if st.numTokens = 1 then
        (if digitIn t 1 6 then some ⟨st.type, stoi t, 2⟩ else none)
      else none := by
  unfold readToken digitIn
  simp only [MAX_INDEX, MIN_INDEX, MAX_DIM, MIN_DIM]
  by_cases hsp : t = [' ']
  · subst hsp
    simp [isdigit]
  · generalize isdigit (t.headD ' ') = b
    cases b
    · simp
    · by_cases hlen : t.length = 1
      · by_cases h0 : st.numTokens = 0
        · by_cases hlo : 1 ≤ stoi t
          · by_cases hhi : stoi t ≤ 3
            · have : ¬ ((stoi t : Int) > 3) := by omega
              have : ¬ ((stoi t : Int) < 1) := by omega
              simp [*]
            · have : (stoi t : Int) > 3 := by omega
              simp [*]
          · have : (stoi t : Int) < 1 := by omega
            simp [*]
        · by_cases h1 : st.numTokens = 1
          · by_cases hlo : 1 ≤ stoi t
            · by_cases hhi : stoi t ≤ 6
              · have : ¬ (stoi t > 6) := by omega
                have : ¬ (stoi t < 1) := by omega
                simp [*]
              · have : stoi t > 6 := by omega
                simp [*]
            · have : stoi t < 1 := by omega
              simp [*]
          · simp [*]
      · simp [*]

/-- The reader of one line is the closed form `acceptLine`. -/
theorem readLine_eq_acceptLine (tok : List Char → List (List Char)) (line : List Char) :
    readLine tok line = acceptLine tok line := by
  unfold readLine acceptLine
  split
  · rfl
  · cases htok : tok line with
    | nil => simp [readTokens]
    | cons t1 r1 =>
      cases r1 with
      | nil =>
        simp only [readTokens, readToken_eq, if_true]
        by_cases h1 : digitIn t1 1 3 = true <;> simp [h1, readTokens]
      | cons t2 r2 =>
        cases r2 with
        | nil =>
          simp only [readTokens, readToken_eq, if_true]
          by_cases h1 : digitIn t1 1 3 = true
          · by_cases h2 : digitIn t2 1 6 = true
            · simp [h1, h2, readToken_eq, readTokens]
            · simp [h1, h2, readToken_eq, readTokens]
          · simp [h1]
        | cons t3 r3 =>
          simp only [readTokens, readToken_eq, if_true]
          by_cases h1 : digitIn t1 1 3 = true
          · by_cases h2 : digitIn t2 1 6 = true
            · simp [h1, h2, readToken_eq, readTokens]
            · simp [h1, h2, readToken_eq, readTokens]
          · simp [h1]

theorem readFileToVector_none (tok : List Char → List (List Char)) (lines : List (List Char))
    (h : ∃ line ∈ lines, readLine tok line = none) :
    ∀ v, readFileToVector tok lines v = none := by
  induction lines with
  | nil =>
    obtain ⟨line, hmem, _⟩ := h
    exact absurd hmem (List.not_mem_nil line)
  | cons l rest ih =>
    intro v
    simp only [readFileToVector]
    cases hl : readLine tok l with
    | none => rfl
    | some r =>
      obtain ⟨line, hmem, hnone⟩ := h
      rcases List.mem_cons.1 hmem with h1 | h1
      · rw [h1, hl] at hnone; exact absurd hnone (by simp)
      · exact ih ⟨line, h1, hnone⟩ _

/-- C17. All-or-nothing input validation: the reader accepts a line only if it is not
empty and has exactly two tokens, a single digit from 1 to 3 and a single digit from 1
to 6; if it rejects any line of the file, `dealWithInput` ends in `inputErr` with
nothing on `std::cout`: no request reaches `printFractals`, so no block is rendered,
also for valid lines before the rejected one. -/
theorem rejected_line_renders_nothing (tok : List Char → List (List Char)) (path : CsvFile)
    (hbad : ∃ line ∈ path.lines, readLine tok line = none) :
    dealWithInput tok path = ⟨[], "Invalid input\n".toList, some Stop.inputErr⟩ ∧
    readFileToVector tok path.lines [] = none ∧
    (∀ line, readLine tok line = acceptLine tok line) ∧
    (∀ line r, readLine tok line = some r →
      line ≠ [] ∧ ∃ t1 t2, tok line = [t1, t2] ∧
        t1.length = 1 ∧ isdigit (t1.headD ' ') = true ∧ 1 ≤ stoi t1 ∧ stoi t1 ≤ 3 ∧
        t2.length = 1 ∧ isdigit (t2.headD ' ') = true ∧ 1 ≤ stoi t2 ∧ stoi t2 ≤ 6 ∧
        r = ⟨(stoi t1 : Int), stoi t2⟩) := by
  have hnone := readFileToVector_none tok path.lines hbad []
  refine ⟨?_, hnone, readLine_eq_acceptLine tok, ?_⟩
  · unfold dealWithInput
    split
    · rfl
    · rw [hnone]; rfl
  · intro line r h
    rw [readLine_eq_acceptLine] at h
    unfold acceptLine at h
    split at h
    · exact absurd h (by simp)
    · rename_i hne
      split at h
      · rename_i t1 t2 htok
        split at h
        · rename_i hd
          simp only [digitIn, Bool.and_eq_true, decide_eq_true_eq] at hd
          obtain ⟨⟨⟨⟨a1, a2⟩, a3⟩, a4⟩, ⟨⟨b1, b2⟩, b3⟩, b4⟩ := hd
          refine ⟨?_, t1, t2, htok, a1, a2, a3, a4, b1, b2, b3, b4, (Option.some.inj h).symm⟩
          intro hl
          apply hne
          rw [hl]; rfl
        · exact absurd h (by simp)
      · exact absurd h (by simp)

theorem rejected_line_renders_nothing_witness :
    (∃ line ∈ (⟨true, ".csv".toList, ["1,1".toList, "2,7".toList]⟩ : CsvFile).lines,
      readLine commaTokens line = none) ∧
    (dealWithInput commaTokens ⟨true, ".csv".toList, ["1,1".toList, "2,7".toList]⟩
        = ⟨[], "Invalid input\n".toList, some Stop.inputErr⟩ ∧
      readFileToVector commaTokens
        (⟨true, ".csv".toList, ["1,1".toList, "2,7".toList]⟩ : CsvFile).lines [] = none ∧
      (∀ line, readLine commaTokens line = acceptLine commaTokens line) ∧
      (∀ line r, readLine commaTokens line = some r →
        line ≠ [] ∧ ∃ t1 t2, commaTokens line = [t1, t2] ∧
          t1.length = 1 ∧ isdigit (t1.headD ' ') = true ∧ 1 ≤ stoi t1 ∧ stoi t1 ≤ 3 ∧
          t2.length = 1 ∧ isdigit (t2.headD ' ') = true ∧ 1 ≤ stoi t2 ∧ stoi t2 ≤ 6 ∧
          r = ⟨(stoi t1 : Int), stoi t2⟩)) ∧
    readLine commaTokens "1,1".toList = some ⟨1, 1⟩ ∧
    readLine commaTokens "2,7".toList = none ∧
    (dealWithInput commaTokens ⟨true, ".csv".toList, ["1,1".toList]⟩).cout
      = "###\n# #\n###\n\n".toList :=
  ⟨⟨"2,7".toList, by decide, by decide⟩,
    rejected_line_renders_nothing commaTokens
      ⟨true, ".csv".toList, ["1,1".toList, "2,7".toList]⟩ ⟨"2,7".toList, by decide, by decide⟩,
    by decide, by decide, by decide⟩

end FractalDrawer
